import Mathlib

/-!
Verification development for the MCNP deck-editing utilities in
`mcnp_funcs.py` (repository `coef_mod`).

The embedding below translates the deck-editing core of the source file
into Lean: the three deck editors (`change_rod_height`,
`change_cell_densities`, `change_cell_and_mat_temps`), their per-line
rewriting helpers (`edit_rod_height_code`, `edit_cell_density_code`,
`edit_cell_temp_code`, `edit_mat_temp_code`) and the nearest-value
resolver (`find_closest_value`).

Modelling conventions:
* Python `str` values are Lean `String`s.  A deck is a list of lines
  *without* their trailing newline; writing a line appends one `"\n"`
  (Python's file iteration yields lines with a trailing newline, and the
  editors either write lines verbatim or strip/re-add the newline).
* Python `float` values are idealized as exact rationals `ℚ`; `round(x, 5)`
  is idealized as exact rounding of the rational to 5 decimal places, and
  `str` of such a value renders the exact decimal expansion with trailing
  zeros stripped (keeping at least one fractional digit), which agrees
  with CPython's repr on the decimal values the editors manipulate.
* A Python function that can raise (out-of-bounds indexing, failing
  `float(...)`/`int(...)` conversions) is embedded with an `Option` result,
  `none` standing for a raised exception.
* The file system is a finite association list from file names to file
  contents; `os.path.isfile` is membership, opening a file in `'w+'` mode
  and writing it completely appends one entry.
-/

/-! ## Character-list utilities (models of Python string primitives) -/

/-- Model of Python `str.split()` (split on runs of whitespace, dropping
empty fields): accumulator-based tokenizer over the character list.  The
accumulator holds the current token reversed. -/
def splitWSAux : List Char → List Char → List (List Char)
  | [], acc => if acc.isEmpty then [] else [acc.reverse]
  | c :: cs, acc =>
    if c.isWhitespace then
      if acc.isEmpty then splitWSAux cs [] else acc.reverse :: splitWSAux cs []
    else splitWSAux cs (c :: acc)

/-- Python `line.split()` : list of whitespace-separated tokens. -/
def pySplit (s : String) : List String := (splitWSAux s.toList []).map String.mk

/-- `isPrefixL needle l` : `needle` is a prefix of `l` (Boolean). -/
def isPrefixL : List Char → List Char → Bool
  | [], _ => true
  | _ :: _, [] => false
  | a :: as, b :: bs => a = b && isPrefixL as bs

/-- `containsL needle hay` : `needle` occurs as a contiguous sublist of
`hay`.  Models Python's substring test `needle in hay`. -/
def containsL (needle : List Char) : List Char → Bool
  | [] => needle.isEmpty
  | c :: t => isPrefixL needle (c :: t) || containsL needle t

/-- Python `sub in hay` for strings. -/
def containsStr (hay sub : String) : Bool := containsL sub.toList hay.toList

/-- Python `s.startswith(pre)`. -/
def pyStartsWith (s pre : String) : Bool := isPrefixL pre.toList s.toList

/-- First character of a line as Python sees it: every line produced by
file iteration is nonempty (an empty source line is read as `"\n"`), so
on the newline-stripped model the first character of an empty line is the
newline itself. -/
def firstChar (l : String) : Char :=
  match l.toList with
  | [] => '\n'
  | c :: _ => c

/-- Fuel-driven worker for Python `str.replace` (replace every
non-overlapping occurrence, left to right).  All call sites pass a
nonempty pattern, and fuel `hay.length` then suffices because each step
consumes at least one character of `hay`. -/
def replaceFuel (oldp newp : List Char) : ℕ → List Char → List Char
  | 0, hay => hay
  | _ + 1, [] => []
  | fuel + 1, c :: t =>
    if isPrefixL oldp (c :: t) then
      newp ++ replaceFuel oldp newp fuel ((c :: t).drop oldp.length)
    else c :: replaceFuel oldp newp fuel t

/-- Python `s.replace(oldp, newp)`. -/
def pyReplace (s oldp newp : String) : String :=
  String.mk (replaceFuel oldp.toList newp.toList s.toList.length s.toList)

/-- Python `s.rstrip()`: drop trailing whitespace. -/
def pyRstrip (s : String) : String :=
  String.mk (s.toList.reverse.dropWhile Char.isWhitespace).reverse

/-- Python `'sep'.join(tokens)` (for a nonempty separator). -/
def joinC (sep : List Char) : List (List Char) → List Char
  | [] => []
  | [t] => t
  | t :: ts => t ++ sep ++ joinC sep ts

/-- Python `'sep'.join(tokens)` at the `String` level. -/
def joinSep (sep : String) : List String → String
  | [] => ""
  | [t] => t
  | t :: ts => t ++ sep ++ joinSep sep ts

/-- Python `s.split('$')` (single-character separator, keeping empty
fields). -/
def splitChar (sep : Char) : List Char → List (List Char)
  | [] => [[]]
  | c :: cs =>
    if c = sep then [] :: splitChar sep cs
    else
      match splitChar sep cs with
      | [] => [[c]]
      | t :: ts => (c :: t) :: ts

/-- Python list slice `l[-1:1]`: the whole list when it has at most one
element (the slice `[n-1, 1)` with `n ≤ 1`), empty otherwise. -/
def sliceNeg1To1 (l : List α) : List α := if l.length ≤ 1 then l else []

/-- The part of a line before the first `'$'` (Python
`line.split('$')[0]`). -/
def beforeDollar (s : String) : String := String.mk (s.toList.takeWhile (fun c => c ≠ '$'))

/-! ## Decimal rendering and parsing (idealized Python `float`) -/

/-- The decimal digit character for `d < 10`. -/
def natDigitChar (d : ℕ) : Char := Char.ofNat (48 + d)

/-- Base-10 digits, least significant first, via explicit fuel (so the
definition is structurally recursive and kernel-reducible). -/
def digitsFuel : ℕ → ℕ → List ℕ
  | 0, _ => []
  | fuel + 1, n => if n = 0 then [] else n % 10 :: digitsFuel fuel (n / 10)

/-- Base-10 digits of `n`, least significant first (`[]` for `0`). -/
def natDigits (n : ℕ) : List ℕ := digitsFuel n n

/-- Value of a least-significant-first digit list. -/
def valOfDigits : List ℕ → ℕ
  | [] => 0
  | d :: ds => d + 10 * valOfDigits ds

/-- Decimal characters of `n`, most significant first (empty for `0`). -/
def natToChars (n : ℕ) : List Char := ((natDigits n).map natDigitChar).reverse

/-- Python `str(n)` for a natural number. -/
def natToStr (n : ℕ) : String := if n = 0 then "0" else String.mk (natToChars n)

/-- Python `str(i)` for an integer. -/
def intToStr (i : ℤ) : String :=
  if i < 0 then "-" ++ natToStr i.natAbs else natToStr i.natAbs

/-- Python `s.zfill(w)` for an unsigned numeral. -/
def zfill (w : ℕ) (s : String) : String :=
  if s.length < w then String.mk (List.replicate (w - s.length) '0') ++ s else s

/-- Numeric value of a decimal digit character. -/
def charVal (c : Char) : ℕ := c.toNat - 48

/-- All characters are decimal digits. -/
def allDigits (cs : List Char) : Bool := cs.all (fun c => c.isDigit)

/-- Value of a most-significant-first list of digit characters. -/
def charsVal (cs : List Char) : ℕ := cs.foldl (fun a c => 10 * a + charVal c) 0

/-- Addition on `ℚ` via `mkRat`, definitionally reducible (Batteries
marks `Rat.add` irreducible); proved equal to `+` below. -/
def qAdd (a b : ℚ) : ℚ := mkRat (a.num * b.den + b.num * a.den) (a.den * b.den)

/-- Multiplication on `ℚ` via `mkRat`; proved equal to `*` below. -/
def qMul (a b : ℚ) : ℚ := mkRat (a.num * b.num) (a.den * b.den)

/-- Subtraction on `ℚ` via `mkRat`; proved equal to `-` below. -/
def qSub (a b : ℚ) : ℚ := mkRat (a.num * b.den - b.num * a.den) (a.den * b.den)

/-- Absolute value on `ℚ` via `mkRat`; proved equal to `|·|` below. -/
def qAbs (a : ℚ) : ℚ := mkRat |a.num| a.den

/-- Rounding to the nearest integer (halves up) via integer division;
proved equal to `round` below. -/
def qRound (q : ℚ) : ℤ := (2 * q.num + q.den) / (2 * (q.den : ℤ))

/-- `⌊q * 10 ^ p⌋` via integer division; proved equal below. -/
def qFloorScaled (p : ℕ) (q : ℚ) : ℤ := q.num * 10 ^ p / (q.den : ℤ)

/-- Unsigned decimal literal: integer digits, optional dot, fraction
digits (at least one digit overall); the value `ip + fp / 10 ^ len`
is built with `mkRat`. -/
def parseUnsignedQ (body : List Char) : Option ℚ :=
  let ip := body.takeWhile (fun c => c ≠ '.')
  match body.dropWhile (fun c => c ≠ '.') with
  | [] => if allDigits ip ∧ ip ≠ [] then some (charsVal ip : ℚ) else none
  | _ :: fp =>
    if allDigits ip ∧ allDigits fp ∧ (ip ≠ [] ∨ fp ≠ []) then
      some (mkRat (charsVal ip * 10 ^ fp.length + charsVal fp) (10 ^ fp.length))
    else none

/-- Model of Python `float(token)` on the plain decimal literals found in
a deck: optional sign, integer digits, optional dot, fraction digits. -/
def parseQ (s : String) : Option ℚ :=
  if s.toList.headD ' ' = '-' then (parseUnsignedQ s.toList.tail).map (fun q => -q)
  else parseUnsignedQ s.toList

/-- Left-pad a least-significant-first digit list with zeros to length `p`. -/
def padTo (p : ℕ) (ds : List ℕ) : List ℕ := ds ++ List.replicate (p - ds.length) 0

/-- Fraction characters (most significant first) for the fractional part
`fp / 10 ^ p`, with trailing zeros of the printed form stripped. -/
def fracChars (p fp : ℕ) : List Char :=
  (((padTo p (natDigits fp)).dropWhile (fun d => d = 0)).map natDigitChar).reverse

/-- Render the exact value `m / 10 ^ p` the way CPython's `str` prints the
corresponding float: optional sign, integer part, a dot, and the fraction
digits with trailing zeros stripped but at least one digit kept. -/
def renderScaled (p : ℕ) (m : ℤ) : String :=
  let a := m.natAbs
  let f := fracChars p (a % 10 ^ p)
  (if m < 0 then "-" else "") ++ natToStr (a / 10 ^ p) ++ "." ++
    (if f.isEmpty then "0" else String.mk f)

/-- The numeric value of Python `round(q, 5)` (idealized to exact
half-up rounding of the rational; the source only ever rounds values
whose 5th decimal is not an exact tie, where every rounding convention
agrees). -/
def pyRound5 (q : ℚ) : ℚ := (round (q * 100000) : ℤ) / 100000

/-- Python `str(round(q, 5))`. -/
def strRound5 (q : ℚ) : String := renderScaled 5 (qRound (qMul q 100000))

/-- Python truncation `int(q)` (toward zero). -/
def pyIntTrunc (q : ℚ) : ℤ := q.num.tdiv (q.den : ℤ)

/-- Idealized `f"{q}"` for a float arising as an exact decimal: the exact
decimal expansion truncated to 30 fractional digits.  (CPython would use
the shortest float repr, possibly in scientific notation; no claim in
this development depends on the exact digits of this rendering, only on
where the editors splice it into a line.) -/
def pyFloatStr (q : ℚ) : String := renderScaled 30 (qFloorScaled 30 q)

/-- Model of Python `int(token)` on an all-digit token. -/
def pyIntParse (s : String) : Option ℤ :=
  match s.toList with
  | '-' :: body =>
    if allDigits body ∧ body ≠ [] then some (-(charsVal body : ℤ)) else none
  | body => if allDigits body ∧ body ≠ [] then some (charsVal body : ℤ) else none

/-! ## Constants and temperature tables (from the top of `mcnp_funcs.py`) -/

/-- `CM_PER_PERCENT_HEIGHT = 0.38`. -/
def CM_PER_PERCENT_HEIGHT : ℚ := mkRat 38 100

/-- `MEV_PER_KELVIN = 8.617e-11`. -/
def MEV_PER_KELVIN : ℚ := mkRat 8617 (10 ^ 14)

/-- A temperature table: supported temperatures (K) paired with their
library token, in Python dict insertion order. -/
abbrev TempDict := List (ℚ × String)

/-- Keys of a table, in declared order. -/
def dictKeys (d : TempDict) : List ℚ := d.map Prod.fst

/-- Values of a table, in declared order. -/
def dictValues (d : TempDict) : List String := d.map Prod.snd

/-- First-match lookup in a table. -/
def dictGet : TempDict → ℚ → Option String
  | [], _ => none
  | (a, b) :: t, k => if k = a then some b else dictGet t k

/-- Lookup with a junk default; every call site first resolves the key
with `find_closest_value` over the same table's keys, so the default is
dead code (Python would raise `KeyError`). -/
def dictGetD (d : TempDict) (k : ℚ) : String := (dictGet d k).getD ""

def U235_TEMP_DICT : TempDict :=
  [(294, "92235.80c"), (600, "92235.81c"), (900, "92235.82c"), (1200, "92235.83c"),
   (2500, "92235.84c"), (mkRat 1 10, "92235.85c"), (250, "92235.86c"), (77, "92235.67c"),
   (3000, "92235.68c")]

def U238_TEMP_DICT : TempDict :=
  [(294, "92238.80c"), (600, "92238.81c"), (900, "92238.82c"), (1200, "92238.83c"),
   (2500, "92238.84c"), (mkRat 1 10, "92238.85c"), (250, "92238.86c"), (77, "92238.67c"),
   (3000, "92238.68c")]

def PU239_TEMP_DICT : TempDict :=
  [(294, "94239.80c"), (600, "94239.81c"), (900, "94239.82c"), (1200, "94239.83c"),
   (2500, "94239.84c"), (mkRat 1 10, "94239.85c"), (250, "94239.86c"), (77, "94239.67c"),
   (3000, "94239.68c")]

def ZR_TEMP_DICT : TempDict :=
  [(294, "40000.66c"), (300, "40000.56c"), (587, "40000.58c")]

def H1_TEMP_DICT : TempDict :=
  [(294, "1001.80c"), (600, "1001.81c"), (900, "1001.82c"), (1200, "1001.83c"),
   (2500, "1001.84c"), (mkRat 1 10, "1001.85c"), (250, "1001.86c")]

def HZR_TEMP_DICT : TempDict :=
  [(294, "h/zr.20t"), (400, "h/zr.21t"), (500, "h/zr.22t"), (600, "h/zr.23t"),
   (700, "h/zr.24t"), (800, "h/zr.25t"), (1000, "h/zr.26t"), (1200, "h/zr.27t")]

def ZRH_TEMP_DICT : TempDict :=
  [(294, "zr/h.30t"), (400, "zr/h.31t"), (500, "zr/h.32t"), (600, "zr/h.33t"),
   (700, "zr/h.34t"), (800, "zr/h.35t"), (1000, "zr/h.36t"), (1200, "zr/h.37t")]

def WATER_TEMP_DICT : TempDict :=
  [(294, "lwtr.20t"), (350, "lwtr.21t"), (400, "lwtr.22t"), (450, "lwtr.23t"),
   (500, "lwtr.24t"), (550, "lwtr.25t"), (600, "lwtr.26t"), (650, "lwtr.27t"),
   (800, "lwtr.28t")]

/-! ## Nearest-value resolver -/

/-- Fold of Python's `min(..., key=f)` over the remaining indices: keeps
the current best and replaces it only on a strictly smaller key, so the
first index achieving the minimum wins. -/
def argminAux (f : ℕ → ℚ) : List ℕ → ℕ → ℕ
  | [], best => best
  | i :: is, best => argminAux f is (if f i < f best then i else best)

/-- `find_closest_value(lst, K) = lst[min(range(len(lst)), key=lambda i: abs(lst[i] - K))]`.
Python raises `ValueError` on an empty list; the `[]` case below is a
junk value and every theorem about this function assumes a nonempty
list. -/
def find_closest_value (lst : List ℚ) (K : ℚ) : ℚ :=
  match lst with
  | [] => 0
  | _ :: _ =>
    lst.getD (argminAux (fun i => qAbs (qSub (lst.getD i 0) K)) ((List.range lst.length).drop 1) 0) 0

/-! ## Per-line rewriting helpers -/

/-- `edit_rod_height_code(geometry, line, height)`: for `"pz"` replace
whitespace field 2 (for `"k/z"` field 4) by its value plus
`height * CM_PER_PERCENT_HEIGHT` rounded to 5 decimals, then rejoin the
first 4 (resp. 7) fields with three spaces and the rest with single
spaces.  `none` models a raised exception (missing field, failing
`float`, or the unbound `new_line` for any other geometry argument). -/
def edit_rod_height_code (geometry line : String) (height : ℚ) : Option String :=
  let entries := pySplit line
  if geometry = "pz" then
    match entries.get? 2 with
    | none => none
    | some t2 =>
      match parseQ t2 with
      | none => none
      | some v =>
        let entries := entries.set 2 (strRound5 (qAdd v (qMul height CM_PER_PERCENT_HEIGHT)))
        some (joinSep "   " (entries.take 4) ++ " " ++ joinSep " " (entries.drop 4))
  else if geometry = "k/z" then
    match entries.get? 4 with
    | none => none
    | some t4 =>
      match parseQ t4 with
      | none => none
      | some v =>
        let entries := entries.set 4 (strRound5 (qAdd v (qMul height CM_PER_PERCENT_HEIGHT)))
        some (joinSep "   " (entries.take 7) ++ " " ++ joinSep " " (entries.drop 7))
  else none

/-- Python `str(-new_density)` for a density given as a plain positive
decimal literal (the `DensitySpec` convention). -/
def pyStrNeg (density : String) : String := "-" ++ density

/-- `edit_cell_density_code(line, mat_card, new_density)`: if field 1
equals the material card, replace field 2 by the negated density and
rejoin all fields with single spaces. -/
def edit_cell_density_code (line matCard newDensity : String) : Option String :=
  let entries := pySplit line
  match entries.get? 1 with
  | none => none
  | some t1 =>
    if t1 = matCard then
      match entries.get? 2 with
      | none => none
      | some _ => some (joinSep " " (entries.set 2 (pyStrNeg newDensity)))
    else some line

/-- `entries.insert(entries.index(tok), new)`: insert before the first
occurrence of `tok` (callers check membership first). -/
def insertBeforeTok (tok new : String) : List String → List String
  | [] => [new]
  | e :: es => if e = tok then new :: e :: es else e :: insertBeforeTok tok new es

/-- `edit_cell_temp_code(line, mat_card, new_temp)`: append
`tmp=<K * MEV_PER_KELVIN>` (before a standalone `$` field when present,
else at the end) and rejoin with single spaces. -/
def edit_cell_temp_code (line matCard : String) (newTemp : ℚ) : Option String :=
  let entries := pySplit line
  match entries.get? 1 with
  | none => none
  | some t1 =>
    if t1 = matCard then
      let tmpTok := "tmp=" ++ pyFloatStr (qMul newTemp MEV_PER_KELVIN)
      if "$" ∈ entries then some (joinSep " " (insertBeforeTok "$" tmpTok entries))
      else some (joinSep " " (entries ++ [tmpTok]))
    else some line

/-- The `for entry in entries` loop of `edit_mat_temp_code`: scan the
tokens in order, and at the first token found in the value set of one of
the five nuclide tables (checked in the fixed order U235, U238, PU239,
ZR, H1) replace every occurrence of that token string in the whole line
with the table entry closest to the requested temperature, then return. -/
def famScan (line : String) (newTemp : ℚ) : List String → Option String
  | [] => none
  | e :: es =>
    if e ∈ dictValues U235_TEMP_DICT then
      some (pyRstrip (pyReplace line e
        (dictGetD U235_TEMP_DICT (find_closest_value (dictKeys U235_TEMP_DICT) newTemp))))
    else if e ∈ dictValues U238_TEMP_DICT then
      some (pyRstrip (pyReplace line e
        (dictGetD U238_TEMP_DICT (find_closest_value (dictKeys U238_TEMP_DICT) newTemp))))
    else if e ∈ dictValues PU239_TEMP_DICT then
      some (pyRstrip (pyReplace line e
        (dictGetD PU239_TEMP_DICT (find_closest_value (dictKeys PU239_TEMP_DICT) newTemp))))
    else if e ∈ dictValues ZR_TEMP_DICT then
      some (pyRstrip (pyReplace line e
        (dictGetD ZR_TEMP_DICT (find_closest_value (dictKeys ZR_TEMP_DICT) newTemp))))
    else if e ∈ dictValues H1_TEMP_DICT then
      some (pyRstrip (pyReplace line e
        (dictGetD H1_TEMP_DICT (find_closest_value (dictKeys H1_TEMP_DICT) newTemp))))
    else famScan line newTemp es

/-- The `mt` loop of `edit_mat_temp_code`: rewrite in place every token
starting with `h/zr` (resp. `zr/h`) using the HZR (resp. ZRH) table,
threading the repeatedly reassigned `new_temp` through the fold exactly
as the Python loop variable is. -/
def mtScan : ℚ → List String → ℚ × List String
  | t, [] => (t, [])
  | t, e :: es =>
    if pyStartsWith e "h/zr" then
      let t2 := find_closest_value (dictKeys HZR_TEMP_DICT) t
      let r := mtScan t2 es
      (r.1, dictGetD HZR_TEMP_DICT t2 :: r.2)
    else if pyStartsWith e "zr/h" then
      let t2 := find_closest_value (dictKeys ZRH_TEMP_DICT) t
      let r := mtScan t2 es
      (r.1, dictGetD ZRH_TEMP_DICT t2 :: r.2)
    else
      let r := mtScan t es
      (r.1, e :: r.2)

/-- `edit_mat_temp_code(line, new_temp)`.  Result `some (some s)` is a
returned string, `some none` is Python's implicit `return None` (no token
of any scanned family and not an `mt` card), and `none` is a raised
`IndexError` (no tokens before the `$` marker at all). -/
def edit_mat_temp_code (line : String) (newTemp : ℚ) : Option (Option String) :=
  let entries := pySplit (beforeDollar line)
  match famScan line newTemp entries with
  | some r => some (some r)
  | none =>
    match entries with
    | [] => none
    | e0 :: _ =>
      if pyStartsWith e0 "mt" then
        some (some (pyRstrip (joinSep " " (mtScan newTemp entries).2 ++ " $ " ++
          joinSep " " ((sliceNeg1To1 (splitChar '$' line.toList)).map String.mk))))
      else some none

/-! ## Block scanners and the three editors -/

/-- The three requested rod heights (integer percent withdrawn), i.e. the
`rod_heights_dict` with keys `"safe"`, `"shim"`, `"reg"`.  The
interactive prompt used when the dict is empty is outside the modelled
core. -/
structure RodHeights where
  safe : ℕ
  shim : ℕ
  reg : ℕ
deriving DecidableEq

/-- The three `inside_block_*` flags of `change_rod_height`. -/
structure RodState where
  safe : Bool
  shim : Bool
  reg : Bool
deriving DecidableEq

/-- Handling of one line inside a rod block (the block body logic that
`change_rod_height` repeats verbatim for the safe, shim and reg blocks):
returns whether we are still inside the block afterwards, and the lines
written. -/
def rodBlockLine (endMarker : String) (height : ℕ) (line : String) :
    Option (Bool × List String) :=
  if firstChar line = 'c' then
    if containsStr line endMarker = true then some (false, [line]) else some (true, [line])
  else if containsStr line "pz" = true ∧ firstChar line = '8' then
    (edit_rod_height_code "pz" line (height : ℚ)).map (fun nl => (true, [nl]))
  else if containsStr line "k/z" = true ∧ firstChar line = '8' then
    (edit_rod_height_code "k/z" line (height : ℚ)).map (fun nl => (true, [nl]))
  else some (true, [line])

/-- One iteration of the `change_rod_height` line loop. -/
def rodStep (hts : RodHeights) (st : RodState) (line : String) :
    Option (RodState × List String) :=
  if st.safe = false ∧ st.shim = false ∧ st.reg = false then
    if containsStr line "Safe Rod (" = true then
      some ({ st with safe := true },
        ["c Safe Rod (" ++ natToStr hts.safe ++ "% withdrawn)"])
    else if containsStr line "Shim Rod (" = true then
      some ({ st with shim := true },
        ["c Shim Rod (" ++ natToStr hts.shim ++ "% withdrawn)"])
    else if containsStr line "Reg Rod (" = true then
      some ({ st with reg := true },
        ["c Reg Rod (" ++ natToStr hts.reg ++ "% withdrawn)"])
    else some (st, [line])
  else if st.safe = true then
    (rodBlockLine "End of Safe Rod" hts.safe line).map
      (fun r => ({ st with safe := r.1 }, r.2))
  else if st.shim = true then
    (rodBlockLine "End of Shim Rod" hts.shim line).map
      (fun r => ({ st with shim := r.1 }, r.2))
  else
    (rodBlockLine "End of Reg Rod" hts.reg line).map
      (fun r => ({ st with reg := r.1 }, r.2))

/-- Run a per-line step over a deck, threading the scanner state and
concatenating the written lines; `none` models an uncaught exception. -/
def runLines {σ : Type} (step : σ → String → Option (σ × List String)) :
    σ → List String → Option (σ × List String)
  | s, [] => some (s, [])
  | s, l :: ls =>
    match step s l with
    | none => none
    | some (s2, out) =>
      match runLines step s2 ls with
      | none => none
      | some (sf, outs) => some (sf, out ++ outs)

/-- First-match lookup in a density spec (material-id token to density
token). -/
def strDictGet : List (String × String) → String → Option String
  | [], _ => none
  | (a, b) :: t, k => if k = a then some b else strDictGet t k

/-- Lookup with junk default; callers establish membership first. -/
def strDictGetD (d : List (String × String)) (k : String) : String :=
  (strDictGet d k).getD ""

/-- One iteration of the `change_cell_densities` line loop over the
single `inside_block_cells` flag. -/
def densityStep (dict : List (String × String)) (inside : Bool) (line : String) :
    Option (Bool × List String) :=
  if inside = false then
    if containsStr line "Begin Cells" = true then some (true, [line])
    else if containsStr line "Begin Surfaces" = true then some (false, [line])
    else some (false, [line])
  else
    match pySplit line with
    | [] => some (true, [line])
    | t0 :: rest =>
      if t0 ≠ "c" then
        match rest with
        | [] => none
        | t1 :: _ =>
          if t1 ∈ dict.map Prod.fst then
            match edit_cell_density_code line t1 (strDictGetD dict t1) with
            | none => none
            | some nl => some (true, ["c " ++ line, nl])
          else some (true, [line])
      else some (true, [line])

/-- The temperature spec `cell_temps_dict`: material id to target
temperature (K), in insertion order. -/
abbrev TempSpec := List (ℤ × ℚ)

/-- First-match lookup by material id. -/
def zDictGet : TempSpec → ℤ → Option ℚ
  | [], _ => none
  | (a, b) :: t, k => if k = a then some b else zDictGet t k

/-- Scanner state of `change_cell_and_mat_temps`: the four
`inside_block_*` flags plus the persistent `mat_id` register. -/
structure TempState where
  cells : Bool
  water : Bool
  surfs : Bool
  mats : Bool
  matId : ℤ
deriving DecidableEq

/-- Python `f"{r}"` for an `Option String` result: `None` prints as the
literal string `"None"`. -/
def optStr : Option String → String
  | some s => s
  | none => "None"

/-- The Cells-block body of the `change_cell_and_mat_temps` line loop
(lines written for one line; the scanner state is unchanged there). -/
def tempCellsLine (dict : TempSpec) (line : String) : Option (List String) :=
  match pySplit line with
  | [] => some [line]
  | t0 :: rest =>
    if t0 ≠ "c" then
      match rest with
      | [] => none
      | t1 :: _ =>
        if t1 ∈ dict.map (fun p => intToStr p.1) then
          match pyIntParse t1 with
          | none => none
          | some k =>
            match zDictGet dict k with
            | none => none
            | some temp =>
              match edit_cell_temp_code line t1 temp with
              | none => none
              | some nl => some ["c " ++ line, nl]
        else some [line]
    else some [line]

/-- The Core-Water-Cells-block body: rewrite lines carrying the `imp:`
importance marker, reading the water temperature from material id 102
(a missing id 102 is Python's `KeyError`). -/
def tempWaterLine (dict : TempSpec) (line : String) : Option (List String) :=
  if (pySplit line) ≠ [] ∧ (pySplit line).head? ≠ some "c" ∧ containsStr line "imp:" = true then
    match zDictGet dict 102 with
    | none => none
    | some t =>
      some ["c " ++ line,
        pyReplace line "imp:n=1" ("imp:n=1 tmp=" ++ pyFloatStr (qMul t MEV_PER_KELVIN))]
  else some [line]

/-- The Materials-block body: update the persistent `mat_id` register on
`m`-cards and rewrite the lines of target materials (the result of
`edit_mat_temp_code` is spliced in via `f"{...}"`, so a `None` return is
written as the literal line `"None"`). -/
def tempMatsLine (dict : TempSpec) (matId : ℤ) (line : String) : Option (ℤ × List String) :=
  match pySplit line with
  | [] => some (matId, [line])
  | t0 :: _ =>
    if t0 ≠ "c" then
      match (if pyStartsWith line "m" = true then
              pyIntParse (String.mk (t0.toList.filter Char.isDigit))
            else some matId) with
      | none => none
      | some mid =>
        if mid ∈ dict.map Prod.fst then
          match edit_mat_temp_code line ((zDictGet dict mid).getD 0) with
          | none => none
          | some r => some (mid, ["c " ++ line, optStr r])
        else some (mid, [line])
    else some (matId, [line])

/-- One iteration of the `change_cell_and_mat_temps` line loop. -/
def tempStep (dict : TempSpec) (st : TempState) (line : String) :
    Option (TempState × List String) :=
  if containsStr line "Begin Cells" = true then
    some ({ cells := true, water := false, surfs := false, mats := false,
            matId := st.matId }, [line])
  else if containsStr line "Begin Core Water Cells" = true then
    some ({ cells := false, water := true, surfs := false, mats := false,
            matId := st.matId }, [line])
  else if containsStr line "Begin Surfaces" = true then
    some ({ cells := false, water := false, surfs := true, mats := false,
            matId := st.matId }, [line])
  else if containsStr line "Begin Materials" = true then
    some ({ cells := false, water := false, surfs := false, mats := true,
            matId := st.matId }, [line])
  else if containsStr line "End Materials" = true then
    some ({ cells := false, water := false, surfs := false, mats := false,
            matId := st.matId }, [line])
  else if containsStr line "End Core Water Cells" = true then
    some ({ cells := true, water := false, surfs := false, mats := false,
            matId := st.matId }, [line])
  else if st.cells = false ∧ st.surfs = false ∧ st.mats = false ∧ st.water = false then
    some (st, [line])
  else if st.cells = true then
    (tempCellsLine dict line).map (fun out => (st, out))
  else if st.water = true then
    (tempWaterLine dict line).map (fun out => (st, out))
  else if st.surfs = true then
    some (st, [line])
  else
    (tempMatsLine dict st.matId line).map (fun r => ({ st with matId := r.1 }, r.2))

/-! ## File-system model and the three top-level editors -/

/-- The file system: file names paired with their contents. -/
abbrev FS := List (String × String)

/-- `os.path.isfile`. -/
def fileExists (fs : FS) (name : String) : Bool := fs.any (fun p => p.1 = name)

/-- Contents of a deck written line by line (each write appends a
newline). -/
def unlines (ls : List String) : String := ls.foldr (fun l acc => l ++ "\n" ++ acc) ""

/-- The derived rod-variant file name
`<filepath>/<folder>/<module>-a<safe:03d>-h<shim:03d>-r<reg:03d>.i`. -/
def rodFileName (filepath moduleName folder : String) (hts : RodHeights) : String :=
  filepath ++ "/" ++ folder ++ "/" ++ moduleName ++ "-a" ++ zfill 3 (natToStr hts.safe) ++
    "-h" ++ zfill 3 (natToStr hts.shim) ++ "-r" ++ zfill 3 (natToStr hts.reg) ++ ".i"

/-- `change_rod_height`: skip (returning `False`) when the derived output
exists, otherwise stream the base deck through `rodStep` and write the
result. -/
def change_rod_height (fs : FS) (filepath moduleName : String) (hts : RodHeights)
    (baseDeck : List String) (folder : String) : Option (Bool × FS) :=
  let name := rodFileName filepath moduleName folder hts
  if fileExists fs name = true then some (false, fs)
  else
    match runLines (rodStep hts) ⟨false, false, false⟩ baseDeck with
    | none => none
    | some r => some (true, fs ++ [(name, unlines r.2)])

/-- The part of a string before the first `'.'` (Python
`name.split('.')[0]`). -/
def beforeDot (s : String) : String := String.mk (s.toList.takeWhile (fun c => c ≠ '.'))

/-- The density-variant file name: starting from `<module>.i`, append one
`-m<id>-<density with dots stripped>.i` suffix per spec entry. -/
def densityNameFold (acc : String) : List (String × String) → String
  | [] => acc
  | (k, v) :: t =>
    densityNameFold (beforeDot acc ++ "-m" ++ k ++ "-" ++
      String.mk (v.toList.filter (fun c => c ≠ '.')) ++ ".i") t

/-- The derived density-variant file name. -/
def densityFileName (filepath moduleName folder : String)
    (dict : List (String × String)) : String :=
  densityNameFold (filepath ++ "/" ++ folder ++ "/" ++ moduleName ++ ".i") dict

/-- `change_cell_densities`. -/
def change_cell_densities (fs : FS) (filepath moduleName : String)
    (dict : List (String × String)) (baseDeck : List String) (folder : String) :
    Option (Bool × FS) :=
  let name := densityFileName filepath moduleName folder dict
  if fileExists fs name = true then some (false, fs)
  else
    match runLines (densityStep dict) false baseDeck with
    | none => none
    | some r => some (true, fs ++ [(name, unlines r.2)])

/-- The derived temperature-variant file name
`<module>-temp-<first target K:04d>.i` (raises on an empty spec). -/
def tempFileName (filepath moduleName folder : String) (v0 : ℚ) : String :=
  filepath ++ "/" ++ folder ++ "/" ++ moduleName ++ "-temp-" ++
    zfill 4 (intToStr (pyIntTrunc v0)) ++ ".i"

/-- `change_cell_and_mat_temps`. -/
def change_cell_and_mat_temps (fs : FS) (filepath moduleName : String)
    (dict : TempSpec) (baseDeck : List String) (folder : String) :
    Option (Bool × FS) :=
  match dict.head? with
  | none => none
  | some kv =>
    let name := tempFileName filepath moduleName folder kv.2
    if fileExists fs name = true then some (false, fs)
    else
      match runLines (tempStep dict) ⟨false, false, false, false, 0⟩ baseDeck with
      | none => none
      | some r => some (true, fs ++ [(name, unlines r.2)])

/-! ## Bridging lemmas: the executable arithmetic agrees with `ℚ` -/

set_option maxRecDepth 8000

theorem qAdd_eq (a b : ℚ) : qAdd a b = a + b := by
  have ha : ((a.den : ℚ)) ≠ 0 := by exact_mod_cast a.den_ne_zero
  have hb : ((b.den : ℚ)) ≠ 0 := by exact_mod_cast b.den_ne_zero
  rw [qAdd, Rat.mkRat_eq_div]
  conv_rhs => rw [← Rat.num_div_den a, ← Rat.num_div_den b, div_add_div _ _ ha hb]
  push_cast
  ring_nf

theorem qMul_eq (a b : ℚ) : qMul a b = a * b := by
  rw [qMul, Rat.mkRat_eq_div]
  conv_rhs => rw [← Rat.num_div_den a, ← Rat.num_div_den b, div_mul_div_comm]
  push_cast
  ring_nf

theorem qSub_eq (a b : ℚ) : qSub a b = a - b := by
  have ha : ((a.den : ℚ)) ≠ 0 := by exact_mod_cast a.den_ne_zero
  have hb : ((b.den : ℚ)) ≠ 0 := by exact_mod_cast b.den_ne_zero
  rw [qSub, Rat.mkRat_eq_div]
  conv_rhs => rw [← Rat.num_div_den a, ← Rat.num_div_den b, div_sub_div _ _ ha hb]
  push_cast
  ring_nf

theorem qAbs_eq (a : ℚ) : qAbs a = |a| := by
  rw [qAbs, Rat.mkRat_eq_div]
  conv_rhs => rw [← Rat.num_div_den a]
  rw [abs_div]
  have : |((a.den : ℚ))| = (a.den : ℚ) := abs_of_nonneg (by positivity)
  rw [this]
  push_cast
  rfl

theorem qRound_eq (q : ℚ) : qRound q = round q := by
  have hden : ((q.den : ℚ)) ≠ 0 := by exact_mod_cast q.den_ne_zero
  have h : q + 1 / 2 = (((2 * q.num + (q.den : ℤ)) : ℤ) : ℚ) / (((2 * q.den : ℕ)) : ℚ) := by
    conv_lhs => rw [← Rat.num_div_den q]
    push_cast
    field_simp
    ring
  rw [round_eq, h, Rat.floor_intCast_div_natCast, qRound]
  push_cast
  rfl

theorem qFloorScaled_eq (p : ℕ) (q : ℚ) : qFloorScaled p q = ⌊q * 10 ^ p⌋ := by
  have h : q * 10 ^ p = ((q.num * 10 ^ p : ℤ) : ℚ) / ((q.den : ℕ) : ℚ) := by
    conv_lhs => rw [← Rat.num_div_den q]
    push_cast
    ring
  rw [h, Rat.floor_intCast_div_natCast, qFloorScaled]

theorem CM_PER_PERCENT_HEIGHT_eq : CM_PER_PERCENT_HEIGHT = 38 / 100 := by
  rw [CM_PER_PERCENT_HEIGHT, Rat.mkRat_eq_div]
  norm_num

theorem MEV_PER_KELVIN_eq : MEV_PER_KELVIN = 8617 / 10 ^ 14 := by
  rw [MEV_PER_KELVIN, Rat.mkRat_eq_div]
  norm_num

/-! ## Properties of the argmin fold -/

theorem argminAux_mem (f : ℕ → ℚ) :
    ∀ (is : List ℕ) (best : ℕ), argminAux f is best ∈ best :: is := by
  intro is
  induction is with
  | nil => intro best; simp [argminAux]
  | cons i t ih =>
    intro best
    rw [argminAux]
    by_cases hfi : f i < f best
    · rw [if_pos hfi]
      rcases List.mem_cons.1 (ih i) with h | h
      · simp [h]
      · simp [h]
    · rw [if_neg hfi]
      rcases List.mem_cons.1 (ih best) with h | h
      · simp [h]
      · simp [h]

theorem argminAux_le (f : ℕ → ℚ) :
    ∀ (is : List ℕ) (best : ℕ), ∀ j ∈ best :: is, f (argminAux f is best) ≤ f j := by
  intro is
  induction is with
  | nil => intro best j hj; simp at hj; simp [argminAux, hj]
  | cons i t ih =>
    intro best j hj
    rw [argminAux]
    by_cases hfi : f i < f best
    · rw [if_pos hfi]
      have hbest : f (argminAux f t i) ≤ f i := ih i i (List.mem_cons_self _ _)
      rcases List.mem_cons.1 hj with rfl | hj2
      · exact le_trans hbest (le_of_lt hfi)
      · rcases List.mem_cons.1 hj2 with rfl | hj3
        · exact hbest
        · exact ih i j (List.mem_cons_of_mem _ hj3)
    · rw [if_neg hfi]
      have hbest : f (argminAux f t best) ≤ f best := ih best best (List.mem_cons_self _ _)
      rcases List.mem_cons.1 hj with rfl | hj2
      · exact hbest
      · rcases List.mem_cons.1 hj2 with rfl | hj3
        · exact le_trans hbest (le_of_not_lt hfi)
        · exact ih best j (List.mem_cons_of_mem _ hj3)

/-- The resolver returns a member of the list that minimizes the absolute
difference to the query. -/
theorem find_closest_value_spec (lst : List ℚ) (K : ℚ) (h : lst ≠ []) :
    find_closest_value lst K ∈ lst ∧
      ∀ x ∈ lst, |find_closest_value lst K - K| ≤ |x - K| := by
  rcases lst with _ | ⟨a, t⟩
  · exact absurd rfl h
  · have hrange : (0 : ℕ) :: (List.range (a :: t).length).drop 1 =
        List.range (a :: t).length := by
      rw [List.length_cons, List.range_succ_eq_map]
      rfl
    rw [find_closest_value]
    set f := fun i => qAbs (qSub ((a :: t).getD i 0) K) with hf
    set idx := argminAux f ((List.range (a :: t).length).drop 1) 0 with hidxdef
    have hmem : idx ∈ List.range (a :: t).length := by
      rw [← hrange]
      exact argminAux_mem f _ 0
    have hlt : idx < (a :: t).length := List.mem_range.1 hmem
    have hgetD : (a :: t).getD idx 0 = (a :: t).get ⟨idx, hlt⟩ :=
      List.getD_eq_get _ _ hlt
    constructor
    · rw [hgetD]
      exact List.get_mem _ _ _
    · intro x hx
      obtain ⟨⟨i, hi⟩, rfl⟩ := List.mem_iff_get.1 hx
      have hile : f idx ≤ f i := by
        refine argminAux_le f _ 0 i ?_
        rw [hrange]
        exact List.mem_range.2 hi
      rw [hf] at hile
      simp only [qAbs_eq, qSub_eq] at hile
      rw [List.getD_eq_get _ _ hi] at hile
      rw [hgetD] at hile ⊢
      exact hile

/-- A supported key resolves to itself. -/
theorem find_closest_value_self (lst : List ℚ) (K : ℚ) (h : K ∈ lst) :
    find_closest_value lst K = K := by
  have hne : lst ≠ [] := List.ne_nil_of_mem h
  obtain ⟨hmem, hmin⟩ := find_closest_value_spec lst K hne
  have h0 : |find_closest_value lst K - K| ≤ 0 := by
    simpa using hmin K h
  have := abs_eq_zero.1 (le_antisymm h0 (abs_nonneg _))
  linarith [sub_eq_zero.1 this]

/-! ## Digit lists: values, bounds, lengths -/

theorem digitsFuel_val : ∀ (fuel n : ℕ), n ≤ fuel → valOfDigits (digitsFuel fuel n) = n := by
  intro fuel
  induction fuel with
  | zero =>
    intro n hn
    have h0 : n = 0 := Nat.le_zero.1 hn
    subst h0
    rfl
  | succ f ih =>
    intro n hn
    by_cases h0 : n = 0
    · subst h0; rfl
    · have hdiv : n / 10 < n := Nat.div_lt_self (Nat.pos_of_ne_zero h0) (by norm_num)
      rw [digitsFuel, if_neg h0, valOfDigits, ih (n / 10) (by omega)]
      omega

theorem digitsFuel_lt10 : ∀ (fuel n : ℕ), ∀ d ∈ digitsFuel fuel n, d < 10 := by
  intro fuel
  induction fuel with
  | zero => intro n d hd; simp [digitsFuel] at hd
  | succ f ih =>
    intro n d hd
    by_cases h0 : n = 0
    · rw [digitsFuel, if_pos h0] at hd; simp at hd
    · rw [digitsFuel, if_neg h0] at hd
      rcases List.mem_cons.1 hd with rfl | hd2
      · exact Nat.mod_lt _ (by norm_num)
      · exact ih _ _ hd2

theorem digitsFuel_len : ∀ (fuel n k : ℕ), n ≤ fuel → n < 10 ^ k →
    (digitsFuel fuel n).length ≤ k := by
  intro fuel
  induction fuel with
  | zero => intro n k _ _; simp [digitsFuel]
  | succ f ih =>
    intro n k h1 h2
    by_cases h0 : n = 0
    · rw [digitsFuel, if_pos h0]; simp
    · rw [digitsFuel, if_neg h0]
      rcases k with _ | k2
      · exfalso
        have : n < 1 := by simpa using h2
        omega
      · have hdiv : n / 10 < n := Nat.div_lt_self (Nat.pos_of_ne_zero h0) (by norm_num)
        have hn10 : n / 10 < 10 ^ k2 := by
          rw [Nat.div_lt_iff_lt_mul (by norm_num : 0 < 10)]
          calc n < 10 ^ (k2 + 1) := h2
          _ = 10 ^ k2 * 10 := by ring
        have := ih (n / 10) k2 (by omega) hn10
        simp only [List.length_cons]
        omega

theorem valOfDigits_append (xs ys : List ℕ) :
    valOfDigits (xs ++ ys) = valOfDigits xs + 10 ^ xs.length * valOfDigits ys := by
  induction xs with
  | nil => simp [valOfDigits]
  | cons d t ih =>
    rw [List.cons_append, valOfDigits, valOfDigits, ih, List.length_cons, pow_succ]
    ring

theorem valOfDigits_replicate_zero (k : ℕ) : valOfDigits (List.replicate k 0) = 0 := by
  induction k with
  | zero => rfl
  | succ n ih => simp [List.replicate_succ, valOfDigits, ih]

theorem charVal_natDigitChar {d : ℕ} (h : d < 10) : charVal (natDigitChar d) = d := by
  interval_cases d <;> rfl

theorem natDigitChar_props {d : ℕ} (h : d < 10) :
    (natDigitChar d).isDigit = true ∧ natDigitChar d ≠ '.' ∧ natDigitChar d ≠ '-' ∧
      (natDigitChar d).isWhitespace = false := by
  interval_cases d <;> exact ⟨rfl, by decide, by decide, rfl⟩

theorem charsVal_snoc (xs : List Char) (c : Char) :
    charsVal (xs ++ [c]) = 10 * charsVal xs + charVal c := by
  rw [charsVal, charsVal, List.foldl_append]
  rfl

theorem charsVal_rev_map : ∀ (ds : List ℕ), (∀ d ∈ ds, d < 10) →
    charsVal ((ds.map natDigitChar).reverse) = valOfDigits ds := by
  intro ds
  induction ds with
  | nil => intro _; rfl
  | cons d t ih =>
    intro h
    rw [List.map_cons, List.reverse_cons, charsVal_snoc,
      ih (fun x hx => h x (List.mem_cons_of_mem _ hx)), valOfDigits,
      charVal_natDigitChar (h d (List.mem_cons_self _ _))]
    ring

theorem natDigits_ne_nil {n : ℕ} (h : n ≠ 0) : natDigits n ≠ [] := by
  rcases n with _ | m
  · exact absurd rfl h
  · rw [natDigits, digitsFuel, if_neg h]
    simp

theorem natDigits_val (n : ℕ) : valOfDigits (natDigits n) = n := digitsFuel_val n n le_rfl

theorem natDigits_lt10 (n : ℕ) : ∀ d ∈ natDigits n, d < 10 := digitsFuel_lt10 n n

theorem natDigits_len {n p : ℕ} (h : n < 10 ^ p) : (natDigits n).length ≤ p :=
  digitsFuel_len n n p le_rfl h

theorem natToStr_spec (n : ℕ) :
    (natToStr n).toList ≠ [] ∧
      (∀ c ∈ (natToStr n).toList,
        c.isDigit = true ∧ c ≠ '.' ∧ c ≠ '-' ∧ c.isWhitespace = false) ∧
      charsVal (natToStr n).toList = n := by
  by_cases h : n = 0
  · subst h
    refine ⟨by decide, ?_, by decide⟩
    intro c hc
    have h0 : (natToStr 0).toList = ['0'] := rfl
    rw [h0] at hc
    have : c = '0' := by simpa using hc
    subst this
    exact ⟨rfl, by decide, by decide, rfl⟩
  · rw [natToStr, if_neg h]
    have hl : (String.mk (natToChars n)).toList = natToChars n := rfl
    rw [hl, natToChars]
    refine ⟨?_, ?_, ?_⟩
    · simp only [ne_eq, List.reverse_eq_nil_iff, List.map_eq_nil]
      exact natDigits_ne_nil h
    · intro c hc
      rw [List.mem_reverse, List.mem_map] at hc
      obtain ⟨d, hd, rfl⟩ := hc
      exact natDigitChar_props (natDigits_lt10 n d hd)
    · rw [charsVal_rev_map _ (natDigits_lt10 n)]
      exact natDigits_val n

theorem takeWhile_append_all {α : Type} {p : α → Bool} :
    ∀ (xs ys : List α), (∀ x ∈ xs, p x = true) →
      (xs ++ ys).takeWhile p = xs ++ ys.takeWhile p := by
  intro xs ys
  induction xs with
  | nil => intro _; rfl
  | cons x t ih =>
    intro h
    rw [List.cons_append, List.takeWhile_cons, if_pos (h x (List.mem_cons_self _ _)),
      ih (fun a ha => h a (List.mem_cons_of_mem _ ha)), List.cons_append]

theorem dropWhile_append_all {α : Type} {p : α → Bool} :
    ∀ (xs ys : List α), (∀ x ∈ xs, p x = true) →
      (xs ++ ys).dropWhile p = ys.dropWhile p := by
  intro xs ys
  induction xs with
  | nil => intro _; rfl
  | cons x t ih =>
    intro h
    rw [List.cons_append, List.dropWhile_cons, if_pos (h x (List.mem_cons_self _ _)),
      ih (fun a ha => h a (List.mem_cons_of_mem _ ha))]

/-- Decomposition of the padded fraction digits: low-order zeros, the
trimmed digit list, and the value/length bookkeeping. -/
theorem frac_decompose (p fp : ℕ) (h : fp < 10 ^ p) :
    ∃ k trimmed, padTo p (natDigits fp) = List.replicate k 0 ++ trimmed ∧
      trimmed = (padTo p (natDigits fp)).dropWhile (fun d => d = 0) ∧
      k + trimmed.length = p ∧ fp = 10 ^ k * valOfDigits trimmed ∧
      (∀ d ∈ trimmed, d < 10) := by
  set pad := padTo p (natDigits fp) with hpaddef
  set trimmed := pad.dropWhile (fun d => d = 0) with htrimdef
  set k := (pad.takeWhile (fun d => d = 0)).length with hkdef
  have hlen : (natDigits fp).length ≤ p := natDigits_len h
  have hpadlen : pad.length = p := by
    rw [hpaddef, padTo, List.length_append, List.length_replicate]
    omega
  have htake : pad.takeWhile (fun d => d = 0) = List.replicate k 0 := by
    refine List.eq_replicate_of_mem ?_
    intro b hb
    have := List.mem_takeWhile_imp hb
    simpa using this
  have hsplit : pad = List.replicate k 0 ++ trimmed := by
    rw [htrimdef, ← htake, List.takeWhile_append_dropWhile]
  have hvalpad : valOfDigits pad = fp := by
    rw [hpaddef, padTo, valOfDigits_append, valOfDigits_replicate_zero, natDigits_val]
    ring
  have hklen : k + trimmed.length = p := by
    have := congrArg List.length hsplit
    rw [List.length_append, List.length_replicate] at this
    omega
  have hval : fp = 10 ^ k * valOfDigits trimmed := by
    rw [← hvalpad, hsplit, valOfDigits_append, valOfDigits_replicate_zero,
      List.length_replicate]
    ring
  refine ⟨k, trimmed, hsplit, htrimdef, hklen, hval, ?_⟩
  intro d hd
  have hdpad : d ∈ pad := (List.dropWhile_sublist _).mem hd
  rw [hpaddef, padTo, List.mem_append] at hdpad
  rcases hdpad with h1 | h2
  · exact natDigits_lt10 fp d h1
  · have : d = 0 := List.eq_of_mem_replicate h2
    omega

theorem toList_append (s t : String) : (s ++ t).toList = s.toList ++ t.toList := rfl

theorem toList_mk (l : List Char) : (String.mk l).toList = l := rfl

theorem parseUnsignedQ_split (ipcs fcs : List Char)
    (hip : ipcs ≠ []) (hipd : ∀ c ∈ ipcs, c.isDigit = true)
    (hfd : ∀ c ∈ fcs, c.isDigit = true) :
    parseUnsignedQ (ipcs ++ '.' :: fcs) =
      some (mkRat (charsVal ipcs * 10 ^ fcs.length + charsVal fcs) (10 ^ fcs.length)) := by
  have hpred : ∀ c ∈ ipcs, (fun c => decide (c ≠ '.')) c = true := by
    intro c hc
    have hd := hipd c hc
    have : c ≠ '.' := by
      intro e
      rw [e] at hd
      exact absurd hd (by decide)
    exact decide_eq_true this
  have htake : (ipcs ++ '.' :: fcs).takeWhile (fun c => decide (c ≠ '.')) = ipcs := by
    rw [takeWhile_append_all _ _ hpred, List.takeWhile_cons]
    simp
  have hdrop : (ipcs ++ '.' :: fcs).dropWhile (fun c => decide (c ≠ '.')) = '.' :: fcs := by
    rw [dropWhile_append_all _ _ hpred, List.dropWhile_cons]
    simp
  rw [parseUnsignedQ]
  simp only [htake, hdrop]
  rw [if_pos]
  refine ⟨List.all_eq_true.2 (fun c hc => hipd c hc), List.all_eq_true.2 (fun c hc => hfd c hc),
    Or.inl hip⟩

theorem parseQ_renderScaled (p : ℕ) (m : ℤ) :
    parseQ (renderScaled p m) = some ((m : ℚ) / 10 ^ p) := by
  have hp10 : (0 : ℕ) < 10 ^ p := pow_pos (by norm_num) p
  set a := m.natAbs with ha
  have hfp : a % 10 ^ p < 10 ^ p := Nat.mod_lt _ hp10
  obtain ⟨k, trimmed, hpad, htrim, hklen, hval, hmem10⟩ := frac_decompose p (a % 10 ^ p) hfp
  have hfrac : fracChars p (a % 10 ^ p) = (trimmed.map natDigitChar).reverse := by
    rw [fracChars, ← htrim]
  obtain ⟨hipne, hipd, hipval⟩ := natToStr_spec (a / 10 ^ p)
  set ipcs := (natToStr (a / 10 ^ p)).toList with hipcs
  set flist := if (fracChars p (a % 10 ^ p)).isEmpty then ['0']
    else fracChars p (a % 10 ^ p) with hflist
  have hfd : ∀ c ∈ flist, c.isDigit = true := by
    intro c hc
    rw [hflist] at hc
    split at hc
    · have : c = '0' := by simpa using hc
      subst this
      rfl
    · rw [hfrac, List.mem_reverse, List.mem_map] at hc
      obtain ⟨d, hd, rfl⟩ := hc
      exact (natDigitChar_props (hmem10 d hd)).1
  have hrender : (renderScaled p m).toList =
      (if m < 0 then ['-'] else []) ++ (ipcs ++ '.' :: flist) := by
    rw [renderScaled]
    simp only [toList_append, apply_ite String.toList, toList_mk]
    have h1 : ("-" : String).toList = ['-'] := rfl
    have h2 : ("" : String).toList = [] := rfl
    have h3 : ("." : String).toList = ['.'] := rfl
    have h4 : ("0" : String).toList = ['0'] := rfl
    rw [h1, h2, h3, h4, hflist]
    simp only [List.append_assoc, List.singleton_append]
  have hvalue : (mkRat (charsVal ipcs * 10 ^ flist.length + charsVal flist)
      (10 ^ flist.length) : ℚ) = (a : ℚ) / 10 ^ p := by
    have hdm : 10 ^ p * (a / 10 ^ p) + a % 10 ^ p = a := Nat.div_add_mod a (10 ^ p)
    by_cases htr : trimmed = []
    · have hfe : (fracChars p (a % 10 ^ p)).isEmpty = true := by
        rw [hfrac, htr]
        rfl
      have hfl : flist = ['0'] := by rw [hflist, if_pos hfe]
      have hmod : a % 10 ^ p = 0 := by
        rw [hval, htr]
        rfl
      have hane : a = 10 ^ p * (a / 10 ^ p) := by omega
      have hc0 : charsVal ['0'] = 0 := rfl
      rw [hfl, hipval, hc0, List.length_singleton, pow_one, Rat.mkRat_eq_div,
        div_eq_div_iff (by positivity) (by positivity)]
      have hnat : (a / 10 ^ p * 10 + 0) * 10 ^ p = a * 10 := by
        rw [add_zero]
        calc a / 10 ^ p * 10 * 10 ^ p = 10 ^ p * (a / 10 ^ p) * 10 := by ring
        _ = a * 10 := by rw [← hane]
      exact_mod_cast hnat
    · have hfe : (fracChars p (a % 10 ^ p)).isEmpty = false := by
        rw [hfrac]
        simpa [List.isEmpty_iff] using htr
      have hfl : flist = (trimmed.map natDigitChar).reverse := by
        rw [hflist, if_neg (by simp [hfe]), hfrac]
      have hflen : flist.length = trimmed.length := by
        rw [hfl, List.length_reverse, List.length_map]
      have hfval : charsVal flist = valOfDigits trimmed := by
        rw [hfl, charsVal_rev_map _ hmem10]
      have hane : a = 10 ^ k * ((a / 10 ^ p) * 10 ^ trimmed.length + valOfDigits trimmed) := by
        calc a = 10 ^ p * (a / 10 ^ p) + a % 10 ^ p := hdm.symm
        _ = 10 ^ (k + trimmed.length) * (a / 10 ^ p) + 10 ^ k * valOfDigits trimmed := by
            rw [hklen, ← hval]
        _ = 10 ^ k * ((a / 10 ^ p) * 10 ^ trimmed.length + valOfDigits trimmed) := by
            rw [pow_add]
            ring
      rw [hipval, hfval, hflen, Rat.mkRat_eq_div,
        div_eq_div_iff (by positivity) (by positivity)]
      have hnat : (a / 10 ^ p * 10 ^ trimmed.length + valOfDigits trimmed) * 10 ^ p =
          a * 10 ^ trimmed.length := by
        calc (a / 10 ^ p * 10 ^ trimmed.length + valOfDigits trimmed) * 10 ^ p
            = (a / 10 ^ p * 10 ^ trimmed.length + valOfDigits trimmed) *
              (10 ^ k * 10 ^ trimmed.length) := by rw [← pow_add, hklen]
        _ = (10 ^ k * ((a / 10 ^ p) * 10 ^ trimmed.length + valOfDigits trimmed)) *
              10 ^ trimmed.length := by ring
        _ = a * 10 ^ trimmed.length := by rw [← hane]
      exact_mod_cast hnat
  have hipdig : ∀ c ∈ ipcs, c.isDigit = true := fun c hc => (hipd c hc).1
  by_cases hm : m < 0
  · have hmq : ((a : ℚ)) = -(m : ℚ) := by
      rw [ha, Int.cast_natAbs, abs_of_neg hm]
      push_cast
      ring
    rw [parseQ, hrender, if_pos hm, List.singleton_append, List.headD_cons,
      if_pos rfl, List.tail_cons]
    rw [parseUnsignedQ_split ipcs flist hipne hipdig hfd]
    simp only [Option.map_some']
    rw [hvalue, hmq, neg_div, neg_neg]
  · have hmq : ((a : ℚ)) = (m : ℚ) := by
      rw [ha, Int.cast_natAbs, abs_of_nonneg (le_of_not_lt hm)]
    obtain ⟨c, cs, hcc⟩ := List.exists_cons_of_ne_nil hipne
    have hcd : c.isDigit = true := hipdig c (by rw [hcc]; exact List.mem_cons_self _ _)
    have hcd2 : c ≠ '-' := by
      intro e
      rw [e] at hcd
      exact absurd hcd (by decide)
    rw [parseQ, hrender, if_neg hm, List.nil_append, hcc, List.cons_append, List.headD_cons,
      if_neg hcd2, ← List.cons_append, ← hcc]
    rw [parseUnsignedQ_split ipcs flist hipne hipdig hfd]
    rw [hvalue, hmq]

/-! ## Splitting a joined token list recovers the tokens -/

theorem splitWSAux_token : ∀ (t : List Char), (∀ c ∈ t, c.isWhitespace = false) →
    ∀ (rest acc : List Char), splitWSAux (t ++ rest) acc = splitWSAux rest (t.reverse ++ acc) := by
  intro t
  induction t with
  | nil => intro _ rest acc; rfl
  | cons c t2 ih =>
    intro h rest acc
    rw [List.cons_append, splitWSAux]
    rw [if_neg (by simp [h c (List.mem_cons_self _ _)])]
    rw [ih (fun x hx => h x (List.mem_cons_of_mem _ hx)) rest (c :: acc)]
    rw [List.reverse_cons, List.append_assoc]
    rfl

theorem splitWSAux_ws_acc (c : Char) (hc : c.isWhitespace = true) (acc : List Char)
    (hacc : acc ≠ []) (rest : List Char) :
    splitWSAux (c :: rest) acc = acc.reverse :: splitWSAux rest [] := by
  rw [splitWSAux, if_pos hc, if_neg (by simpa [List.isEmpty_iff] using hacc)]

theorem splitWSAux_ws_run : ∀ (w : List Char), (∀ c ∈ w, c.isWhitespace = true) →
    ∀ (rest : List Char), splitWSAux (w ++ rest) [] = splitWSAux rest [] := by
  intro w
  induction w with
  | nil => intro _ rest; rfl
  | cons c t ih =>
    intro h rest
    rw [List.cons_append, splitWSAux, if_pos (h c (List.mem_cons_self _ _))]
    simp only [List.isEmpty_nil, if_pos]
    exact ih (fun x hx => h x (List.mem_cons_of_mem _ hx)) rest

theorem splitWS_join : ∀ (ts : List (List Char)) (sep rest : List Char),
    (∀ t ∈ ts, t ≠ [] ∧ ∀ c ∈ t, c.isWhitespace = false) →
    sep ≠ [] → (∀ c ∈ sep, c.isWhitespace = true) →
    (rest = [] ∨ ∃ c rest2, rest = c :: rest2 ∧ c.isWhitespace = true) →
    splitWSAux (joinC sep ts ++ rest) [] = ts ++ splitWSAux rest [] := by
  intro ts
  induction ts with
  | nil => intro sep rest _ _ _ _; rfl
  | cons t ts2 ih =>
    intro sep rest hts hsep hsepws hrest
    obtain ⟨htne, htc⟩ := hts t (List.mem_cons_self _ _)
    cases ts2 with
    | nil =>
      rw [joinC, splitWSAux_token t htc rest []]
      rcases hrest with rfl | ⟨c, rest2, rfl, hcw⟩
      · rw [splitWSAux, if_neg (by simpa [List.isEmpty_iff] using
          (fun h => htne (by simpa using congrArg List.reverse h) : t.reverse ++ [] ≠ []))]
        simp [splitWSAux]
      · rw [List.append_nil, splitWSAux_ws_acc c hcw t.reverse
          (by simpa using htne) rest2, List.reverse_reverse, splitWSAux, if_pos hcw]
        simp
    | cons t2 ts3 =>
      have hj : joinC sep (t :: t2 :: ts3) = t ++ sep ++ joinC sep (t2 :: ts3) := rfl
      rw [hj]
      rcases List.exists_cons_of_ne_nil hsep with ⟨sc, sr, rfl⟩
      rw [List.append_assoc, List.append_assoc, splitWSAux_token t htc _ [],
        List.append_nil, List.cons_append,
        splitWSAux_ws_acc sc (hsepws sc (List.mem_cons_self _ _)) t.reverse
          (by simpa using htne) _, List.reverse_reverse,
        splitWSAux_ws_run sr (fun x hx => hsepws x (List.mem_cons_of_mem _ hx)) _]
      rw [ih (sc :: sr) rest (fun x hx => hts x (List.mem_cons_of_mem _ hx)) hsep hsepws hrest]
      rfl

theorem splitWSAux_tokensOK : ∀ (l acc : List Char), (∀ c ∈ acc, c.isWhitespace = false) →
    ∀ t ∈ splitWSAux l acc, t ≠ [] ∧ ∀ c ∈ t, c.isWhitespace = false := by
  intro l
  induction l with
  | nil =>
    intro acc hacc t ht
    rw [splitWSAux] at ht
    split at ht
    · simp at ht
    · rename_i hne
      have : t = acc.reverse := by simpa using ht
      subst this
      refine ⟨by simpa [List.isEmpty_iff] using hne, fun c hc => hacc c (by simpa using hc)⟩
  | cons c cs ih =>
    intro acc hacc t ht
    rw [splitWSAux] at ht
    split at ht
    · rename_i hws
      split at ht
      · exact ih [] (by simp) t ht
      · rename_i hne
        rcases List.mem_cons.1 ht with rfl | ht2
        · refine ⟨by simpa [List.isEmpty_iff] using hne, fun x hx => hacc x (by simpa using hx)⟩
        · exact ih [] (by simp) t ht2
    · rename_i hws
      refine ih (c :: acc) ?_ t ht
      intro x hx
      rcases List.mem_cons.1 hx with rfl | hx2
      · simpa using hws
      · exact hacc x hx2

theorem joinSep_toList (sep : String) : ∀ (ls : List String),
    (joinSep sep ls).toList = joinC sep.toList (ls.map String.toList) := by
  intro ls
  induction ls with
  | nil => rfl
  | cons t ts ih =>
    cases ts with
    | nil => rfl
    | cons t2 ts2 =>
      have hj : joinSep sep (t :: t2 :: ts2) = t ++ sep ++ joinSep sep (t2 :: ts2) := rfl
      have hj2 : joinC sep.toList (List.map String.toList (t :: t2 :: ts2)) =
          t.toList ++ sep.toList ++ joinC sep.toList (List.map String.toList (t2 :: ts2)) := rfl
      rw [hj, hj2, toList_append, toList_append, ih]

theorem mk_toList (s : String) : String.mk s.toList = s := rfl

theorem map_mk_toList : ∀ (ls : List String), (ls.map String.toList).map String.mk = ls := by
  intro ls
  induction ls with
  | nil => rfl
  | cons t ts ih => rw [List.map_cons, List.map_cons, mk_toList, ih]

theorem fracChars_mem (p fp : ℕ) :
    ∀ c ∈ fracChars p fp, c.isDigit = true ∧ c.isWhitespace = false := by
  intro c hc
  rw [fracChars, List.mem_reverse, List.mem_map] at hc
  obtain ⟨d, hd, rfl⟩ := hc
  have hdpad : d ∈ padTo p (natDigits fp) := (List.dropWhile_sublist _).mem hd
  have hd10 : d < 10 := by
    rw [padTo, List.mem_append] at hdpad
    rcases hdpad with h1 | h2
    · exact natDigits_lt10 fp d h1
    · have : d = 0 := List.eq_of_mem_replicate h2
      omega
  exact ⟨(natDigitChar_props hd10).1, (natDigitChar_props hd10).2.2.2⟩

theorem renderScaled_chars (p : ℕ) (m : ℤ) :
    (renderScaled p m).toList ≠ [] ∧
      ∀ c ∈ (renderScaled p m).toList, c.isWhitespace = false := by
  rw [renderScaled]
  simp only [toList_append, apply_ite String.toList, toList_mk]
  have h3 : ("." : String).toList = ['.'] := rfl
  rw [h3]
  constructor
  · intro h
    simp [List.append_eq_nil] at h
  · intro c hc
    rcases List.mem_append.1 hc with hc1 | hfr
    · rcases List.mem_append.1 hc1 with hc2 | hdot
      · rcases List.mem_append.1 hc2 with hsign | hip
        · split at hsign
          · have : c = '-' := by simpa using hsign
            subst this
            rfl
          · simp at hsign
        · exact ((natToStr_spec _).2.1 c hip).2.2.2
      · have : c = '.' := by simpa using hdot
        subst this
        rfl
    · split at hfr
      · have : c = '0' := by
          have h0 : ("0" : String).toList = ['0'] := rfl
          rw [h0] at hfr
          simpa using hfr
        subst this
        rfl
      · exact (fracChars_mem _ _ c hfr).2

theorem pySplit_join (sep : String) (ts : List String)
    (hsep : sep.toList ≠ [] ∧ ∀ c ∈ sep.toList, c.isWhitespace = true)
    (hts : ∀ t ∈ ts, t.toList ≠ [] ∧ ∀ c ∈ t.toList, c.isWhitespace = false) :
    pySplit (joinSep sep ts) = ts := by
  rw [pySplit, joinSep_toList, ← List.append_nil (joinC sep.toList (ts.map String.toList))]
  rw [splitWS_join (ts.map String.toList) sep.toList []
    (by
      intro t ht
      rw [List.mem_map] at ht
      obtain ⟨t0, ht0, rfl⟩ := ht
      exact hts t0 ht0)
    hsep.1 hsep.2 (Or.inl rfl)]
  rw [show splitWSAux ([] : List Char) [] = [] from rfl, List.append_nil, map_mk_toList]

theorem pySplit_two_joins (sep1 sep2 : String) (ts1 ts2 : List String)
    (hsep1 : sep1.toList ≠ [] ∧ ∀ c ∈ sep1.toList, c.isWhitespace = true)
    (hsep2 : sep2.toList ≠ [] ∧ ∀ c ∈ sep2.toList, c.isWhitespace = true)
    (hts : ∀ t ∈ ts1 ++ ts2, t.toList ≠ [] ∧ ∀ c ∈ t.toList, c.isWhitespace = false) :
    pySplit (joinSep sep1 ts1 ++ " " ++ joinSep sep2 ts2) = ts1 ++ ts2 := by
  have hts1 : ∀ t ∈ ts1, t.toList ≠ [] ∧ ∀ c ∈ t.toList, c.isWhitespace = false :=
    fun t ht => hts t (List.mem_append.2 (Or.inl ht))
  have hts2 : ∀ t ∈ ts2, t.toList ≠ [] ∧ ∀ c ∈ t.toList, c.isWhitespace = false :=
    fun t ht => hts t (List.mem_append.2 (Or.inr ht))
  rw [pySplit, toList_append, toList_append, joinSep_toList, joinSep_toList]
  have hsp : (" " : String).toList = [' '] := rfl
  rw [hsp, List.append_assoc, List.singleton_append]
  rw [splitWS_join (ts1.map String.toList) sep1.toList
    (' ' :: joinC sep2.toList (ts2.map String.toList))
    (by
      intro t ht
      rw [List.mem_map] at ht
      obtain ⟨t0, ht0, rfl⟩ := ht
      exact hts1 t0 ht0)
    hsep1.1 hsep1.2 (Or.inr ⟨' ', _, rfl, rfl⟩)]
  rw [show (' ' :: joinC sep2.toList (ts2.map String.toList)) =
    [' '] ++ joinC sep2.toList (ts2.map String.toList) from rfl]
  rw [splitWSAux_ws_run [' '] (by intro c hc; simp at hc; subst hc; rfl) _]
  rw [← List.append_nil (joinC sep2.toList (ts2.map String.toList))]
  rw [splitWS_join (ts2.map String.toList) sep2.toList []
    (by
      intro t ht
      rw [List.mem_map] at ht
      obtain ⟨t0, ht0, rfl⟩ := ht
      exact hts2 t0 ht0)
    hsep2.1 hsep2.2 (Or.inl rfl)]
  rw [show splitWSAux ([] : List Char) [] = [] from rfl, List.append_nil,
    List.map_append, map_mk_toList, map_mk_toList]

/-! ## Token and dictionary support lemmas -/

theorem pySplit_tokensOK (s : String) :
    ∀ t ∈ pySplit s, t.toList ≠ [] ∧ ∀ c ∈ t.toList, c.isWhitespace = false := by
  intro t ht
  rw [pySplit, List.mem_map] at ht
  obtain ⟨t0, ht0, rfl⟩ := ht
  have h := splitWSAux_tokensOK s.toList [] (by simp) t0 ht0
  exact ⟨by simpa [toList_mk] using h.1, by simpa [toList_mk] using h.2⟩

theorem strDictGet_some_mem : ∀ (d : List (String × String)) (k v : String),
    strDictGet d k = some v → k ∈ d.map Prod.fst := by
  intro d
  induction d with
  | nil => intro k v h; simp [strDictGet] at h
  | cons p t ih =>
    intro k v h
    rw [strDictGet] at h
    split at h
    · rename_i hk
      simp [hk]
    · simp only [List.map_cons, List.mem_cons]
      exact Or.inr (ih k v h)

theorem zDictGet_some_mem : ∀ (d : TempSpec) (k : ℤ) (v : ℚ),
    zDictGet d k = some v → k ∈ d.map Prod.fst := by
  intro d
  induction d with
  | nil => intro k v h; simp [zDictGet] at h
  | cons p t ih =>
    intro k v h
    rw [zDictGet] at h
    split at h
    · rename_i hk
      simp [hk]
    · simp only [List.map_cons, List.mem_cons]
      exact Or.inr (ih k v h)

/-- A token belongs to one of the five nuclide tables scanned by the
first loop of `edit_mat_temp_code`. -/
def inNuclideFam (e : String) : Prop :=
  e ∈ dictValues U235_TEMP_DICT ∨ e ∈ dictValues U238_TEMP_DICT ∨
    e ∈ dictValues PU239_TEMP_DICT ∨ e ∈ dictValues ZR_TEMP_DICT ∨
    e ∈ dictValues H1_TEMP_DICT

instance (e : String) : Decidable (inNuclideFam e) := by
  rw [inNuclideFam]
  infer_instance

theorem famScan_skip (line : String) (temp : ℚ) :
    ∀ (pre rest : List String), (∀ x ∈ pre, ¬ inNuclideFam x) →
      famScan line temp (pre ++ rest) = famScan line temp rest := by
  intro pre
  induction pre with
  | nil => intro rest _; rfl
  | cons x t ih =>
    intro rest h
    have hx := h x (List.mem_cons_self _ _)
    rw [inNuclideFam] at hx
    push_neg at hx
    rw [List.cons_append, famScan, if_neg hx.1, if_neg hx.2.1, if_neg hx.2.2.1,
      if_neg hx.2.2.2.1, if_neg hx.2.2.2.2]
    exact ih rest (fun a ha => h a (List.mem_cons_of_mem _ ha))

theorem famScan_nil (line : String) (temp : ℚ) : famScan line temp [] = none := rfl

/-! ## Rod block-line facts -/

theorem rodBlockLine_single (em : String) (hp : ℕ) (line : String) :
    ∀ b out, rodBlockLine em hp line = some (b, out) → out.length = 1 := by
  intro b out h
  rw [rodBlockLine] at h
  split_ifs at h
  · simp only [Option.some.injEq, Prod.mk.injEq] at h
    rw [← h.2]
    rfl
  · simp only [Option.some.injEq, Prod.mk.injEq] at h
    rw [← h.2]
    rfl
  · rw [Option.map_eq_some'] at h
    obtain ⟨nl, _, h2⟩ := h
    rw [Prod.mk.injEq] at h2
    rw [← h2.2]
    rfl
  · rw [Option.map_eq_some'] at h
    obtain ⟨nl, _, h2⟩ := h
    rw [Prod.mk.injEq] at h2
    rw [← h2.2]
    rfl
  · simp only [Option.some.injEq, Prod.mk.injEq] at h
    rw [← h.2]
    rfl

theorem rodBlockLine_stay (em : String) (hp : ℕ) (line : String)
    (h : ¬(firstChar line = 'c' ∧ containsStr line em = true)) :
    ∀ b out, rodBlockLine em hp line = some (b, out) → b = true := by
  intro b out hb
  rw [rodBlockLine] at hb
  split_ifs at hb
  · rename_i h1 h2
    exact absurd ⟨h1, h2⟩ h
  · simp only [Option.some.injEq, Prod.mk.injEq] at hb
    exact hb.1.symm
  · rw [Option.map_eq_some'] at hb
    obtain ⟨nl, _, h2⟩ := hb
    rw [Prod.mk.injEq] at h2
    exact h2.1.symm
  · rw [Option.map_eq_some'] at hb
    obtain ⟨nl, _, h2⟩ := hb
    rw [Prod.mk.injEq] at h2
    exact h2.1.symm
  · simp only [Option.some.injEq, Prod.mk.injEq] at hb
    exact hb.1.symm

/-- Processing a list of lines entirely with the in-block handler of one
rod block. -/
def rodBlockAll (em : String) (hp : ℕ) : List String → Option (List String)
  | [] => some []
  | l :: ls =>
    match rodBlockLine em hp l with
    | none => none
    | some r => (rodBlockAll em hp ls).map (fun outs => r.2 ++ outs)

/-! ## Emission shapes of the per-line steps -/

/-- The provenance discipline the spec claims for rewritten lines: a line
is either passed through unchanged, or emitted as its commented-out
original followed by one replacement line. -/
def commentedProvenance (line : String) (out : List String) : Prop :=
  out = [line] ∨ ∃ t, out = ["c " ++ line, t]

theorem densityStep_shape (dict : List (String × String)) (inside : Bool) (line : String) :
    ∀ s2 out, densityStep dict inside line = some (s2, out) → commentedProvenance line out := by
  intro s2 out h
  rw [densityStep] at h
  repeat' split at h
  all_goals
    first
    | exact Option.noConfusion h
    | (rw [Option.some.injEq, Prod.mk.injEq] at h
       exact Or.inl h.2.symm)
    | (rw [Option.some.injEq, Prod.mk.injEq] at h
       exact Or.inr ⟨_, h.2.symm⟩)

theorem tempCellsLine_shape (dict : TempSpec) (line : String) :
    ∀ out, tempCellsLine dict line = some out → commentedProvenance line out := by
  intro out h
  rw [tempCellsLine] at h
  repeat' split at h
  all_goals
    first
    | exact Option.noConfusion h
    | (rw [Option.some.injEq] at h
       exact Or.inl h.symm)
    | (rw [Option.some.injEq] at h
       exact Or.inr ⟨_, h.symm⟩)

theorem tempWaterLine_shape (dict : TempSpec) (line : String) :
    ∀ out, tempWaterLine dict line = some out → commentedProvenance line out := by
  intro out h
  rw [tempWaterLine] at h
  repeat' split at h
  all_goals
    first
    | exact Option.noConfusion h
    | (rw [Option.some.injEq] at h
       exact Or.inl h.symm)
    | (rw [Option.some.injEq] at h
       exact Or.inr ⟨_, h.symm⟩)

theorem tempMatsLine_shape (dict : TempSpec) (matId : ℤ) (line : String) :
    ∀ r, tempMatsLine dict matId line = some r → commentedProvenance line r.2 := by
  intro r h
  rw [tempMatsLine] at h
  repeat' split at h
  all_goals
    first
    | exact Option.noConfusion h
    | (rw [Option.some.injEq] at h
       exact Or.inl (congrArg Prod.snd h).symm)
    | (rw [Option.some.injEq] at h
       exact Or.inr ⟨_, (congrArg Prod.snd h).symm⟩)

set_option maxHeartbeats 1000000 in
theorem tempStep_shape (dict : TempSpec) (st : TempState) (line : String) :
    ∀ s2 out, tempStep dict st line = some (s2, out) → commentedProvenance line out := by
  intro s2 out h
  rw [tempStep] at h
  split_ifs at h
  all_goals
    first
    | (rw [Option.some.injEq, Prod.mk.injEq] at h
       exact Or.inl h.2.symm)
    | (rw [Option.map_eq_some'] at h
       obtain ⟨r, hr, h2⟩ := h
       rw [Prod.mk.injEq] at h2
       rw [← h2.2]
       first
       | exact tempCellsLine_shape dict line r hr
       | exact tempWaterLine_shape dict line r hr
       | exact tempMatsLine_shape dict st.matId line r hr)

theorem rodStep_single (hts : RodHeights) (st : RodState) (line : String) :
    ∀ s2 out, rodStep hts st line = some (s2, out) → out.length = 1 := by
  intro s2 out h
  rw [rodStep] at h
  split_ifs at h
  · rw [Option.some.injEq, Prod.mk.injEq] at h
    rw [← h.2]
    rfl
  · rw [Option.some.injEq, Prod.mk.injEq] at h
    rw [← h.2]
    rfl
  · rw [Option.some.injEq, Prod.mk.injEq] at h
    rw [← h.2]
    rfl
  · rw [Option.some.injEq, Prod.mk.injEq] at h
    rw [← h.2]
    rfl
  · rw [Option.map_eq_some'] at h
    obtain ⟨r, hr, h2⟩ := h
    rw [Prod.mk.injEq] at h2
    rw [← h2.2]
    exact rodBlockLine_single _ _ _ r.1 r.2 hr
  · rw [Option.map_eq_some'] at h
    obtain ⟨r, hr, h2⟩ := h
    rw [Prod.mk.injEq] at h2
    rw [← h2.2]
    exact rodBlockLine_single _ _ _ r.1 r.2 hr
  · rw [Option.map_eq_some'] at h
    obtain ⟨r, hr, h2⟩ := h
    rw [Prod.mk.injEq] at h2
    rw [← h2.2]
    exact rodBlockLine_single _ _ _ r.1 r.2 hr

/-! ## Staying inside an unterminated rod block -/

theorem runLines_inside_safe (hts : RodHeights) : ∀ (lines : List String),
    (∀ l ∈ lines, ¬(firstChar l = 'c' ∧ containsStr l "End of Safe Rod" = true)) →
    runLines (rodStep hts) ⟨true, false, false⟩ lines =
      (rodBlockAll "End of Safe Rod" hts.safe lines).map
        (fun outs => (⟨true, false, false⟩, outs)) := by
  intro lines
  induction lines with
  | nil => intro _; rfl
  | cons l ls ih =>
    intro h
    rw [runLines, rodBlockAll]
    have hstep : rodStep hts ⟨true, false, false⟩ l =
        (rodBlockLine "End of Safe Rod" hts.safe l).map
          (fun r => (⟨r.1, false, false⟩, r.2)) := by
      rw [rodStep]
      rw [if_neg (by simp), if_pos rfl]
    rw [hstep]
    cases hb : rodBlockLine "End of Safe Rod" hts.safe l with
    | none => rfl
    | some r =>
      have hr1 : r.1 = true :=
        rodBlockLine_stay _ _ _ (h l (List.mem_cons_self _ _)) r.1 r.2 (by rw [hb])
      simp only [Option.map_some']
      rw [hr1, ih (fun x hx => h x (List.mem_cons_of_mem _ hx))]
      cases hall : rodBlockAll "End of Safe Rod" hts.safe ls with
      | none => simp [hr1]
      | some outs => simp [hr1]

theorem rodBlockAll_isSome (em : String) (hp : ℕ) : ∀ (lines : List String),
    (∀ l ∈ lines, (rodBlockLine em hp l).isSome = true) →
    (rodBlockAll em hp lines).isSome = true := by
  intro lines
  induction lines with
  | nil => intro _; rfl
  | cons l ls ih =>
    intro h
    rw [rodBlockAll]
    rcases Option.isSome_iff_exists.1 (h l (List.mem_cons_self _ _)) with ⟨r, hr⟩
    rw [hr]
    have := ih (fun x hx => h x (List.mem_cons_of_mem _ hx))
    rcases Option.isSome_iff_exists.1 this with ⟨outs, houts⟩
    rw [houts]
    rfl

/-! ## Skip/write behavior of the three top-level editors -/

theorem change_rod_height_cases (fs : FS) (filepath moduleName : String) (hts : RodHeights)
    (baseDeck : List String) (folder : String) :
    (fileExists fs (rodFileName filepath moduleName folder hts) = true →
      change_rod_height fs filepath moduleName hts baseDeck folder = some (false, fs)) ∧
    (fileExists fs (rodFileName filepath moduleName folder hts) = false →
      change_rod_height fs filepath moduleName hts baseDeck folder =
        (runLines (rodStep hts) ⟨false, false, false⟩ baseDeck).map
          (fun r => (true, fs ++ [(rodFileName filepath moduleName folder hts, unlines r.2)]))) ∧
    (∀ fs2, change_rod_height fs filepath moduleName hts baseDeck folder = some (true, fs2) →
      change_rod_height fs2 filepath moduleName hts baseDeck folder = some (false, fs2)) := by
  refine ⟨?_, ?_, ?_⟩
  · intro h
    rw [change_rod_height, if_pos h]
  · intro h
    rw [change_rod_height, if_neg (by simp [h])]
    cases hr : runLines (rodStep hts) ⟨false, false, false⟩ baseDeck with
    | none => rfl
    | some r => rfl
  · intro fs2 h2
    rw [change_rod_height] at h2
    by_cases hex : fileExists fs (rodFileName filepath moduleName folder hts) = true
    · rw [if_pos hex] at h2
      simp at h2
    · rw [if_neg hex] at h2
      cases hr : runLines (rodStep hts) ⟨false, false, false⟩ baseDeck with
      | none => rw [hr] at h2; exact Option.noConfusion h2
      | some r =>
        rw [hr] at h2
        rw [Option.some.injEq, Prod.mk.injEq] at h2
        have hfs2 : fs2 = fs ++ [(rodFileName filepath moduleName folder hts, unlines r.2)] :=
          h2.2.symm
        have hex2 : fileExists fs2 (rodFileName filepath moduleName folder hts) = true := by
          rw [hfs2, fileExists, List.any_append]
          simp
        rw [change_rod_height, if_pos hex2]

theorem change_cell_densities_cases (fs : FS) (filepath moduleName : String)
    (dict : List (String × String)) (baseDeck : List String) (folder : String) :
    (fileExists fs (densityFileName filepath moduleName folder dict) = true →
      change_cell_densities fs filepath moduleName dict baseDeck folder = some (false, fs)) ∧
    (fileExists fs (densityFileName filepath moduleName folder dict) = false →
      change_cell_densities fs filepath moduleName dict baseDeck folder =
        (runLines (densityStep dict) false baseDeck).map
          (fun r => (true, fs ++ [(densityFileName filepath moduleName folder dict,
            unlines r.2)]))) ∧
    (∀ fs2, change_cell_densities fs filepath moduleName dict baseDeck folder =
        some (true, fs2) →
      change_cell_densities fs2 filepath moduleName dict baseDeck folder = some (false, fs2)) := by
  refine ⟨?_, ?_, ?_⟩
  · intro h
    rw [change_cell_densities, if_pos h]
  · intro h
    rw [change_cell_densities, if_neg (by simp [h])]
    cases hr : runLines (densityStep dict) false baseDeck with
    | none => rfl
    | some r => rfl
  · intro fs2 h2
    rw [change_cell_densities] at h2
    by_cases hex : fileExists fs (densityFileName filepath moduleName folder dict) = true
    · rw [if_pos hex] at h2
      simp at h2
    · rw [if_neg hex] at h2
      cases hr : runLines (densityStep dict) false baseDeck with
      | none => rw [hr] at h2; exact Option.noConfusion h2
      | some r =>
        rw [hr] at h2
        rw [Option.some.injEq, Prod.mk.injEq] at h2
        have hfs2 : fs2 = fs ++ [(densityFileName filepath moduleName folder dict,
            unlines r.2)] := h2.2.symm
        have hex2 : fileExists fs2 (densityFileName filepath moduleName folder dict) = true := by
          rw [hfs2, fileExists, List.any_append]
          simp
        rw [change_cell_densities, if_pos hex2]

theorem change_cell_and_mat_temps_cases (fs : FS) (filepath moduleName : String)
    (dict : TempSpec) (kv : ℤ × ℚ) (hhead : dict.head? = some kv)
    (baseDeck : List String) (folder : String) :
    (fileExists fs (tempFileName filepath moduleName folder kv.2) = true →
      change_cell_and_mat_temps fs filepath moduleName dict baseDeck folder =
        some (false, fs)) ∧
    (fileExists fs (tempFileName filepath moduleName folder kv.2) = false →
      change_cell_and_mat_temps fs filepath moduleName dict baseDeck folder =
        (runLines (tempStep dict) ⟨false, false, false, false, 0⟩ baseDeck).map
          (fun r => (true, fs ++ [(tempFileName filepath moduleName folder kv.2,
            unlines r.2)]))) ∧
    (∀ fs2, change_cell_and_mat_temps fs filepath moduleName dict baseDeck folder =
        some (true, fs2) →
      change_cell_and_mat_temps fs2 filepath moduleName dict baseDeck folder =
        some (false, fs2)) := by
  refine ⟨?_, ?_, ?_⟩
  · intro h
    rw [change_cell_and_mat_temps, hhead]
    simp only []
    rw [if_pos h]
  · intro h
    rw [change_cell_and_mat_temps, hhead]
    simp only []
    rw [if_neg (by simp [h])]
    cases hr : runLines (tempStep dict) ⟨false, false, false, false, 0⟩ baseDeck with
    | none => rfl
    | some r => rfl
  · intro fs2 h2
    rw [change_cell_and_mat_temps, hhead] at h2
    simp only [] at h2
    by_cases hex : fileExists fs (tempFileName filepath moduleName folder kv.2) = true
    · rw [if_pos hex] at h2
      simp at h2
    · rw [if_neg hex] at h2
      cases hr : runLines (tempStep dict) ⟨false, false, false, false, 0⟩ baseDeck with
      | none => rw [hr] at h2; exact Option.noConfusion h2
      | some r =>
        rw [hr] at h2
        rw [Option.some.injEq, Prod.mk.injEq] at h2
        have hfs2 : fs2 = fs ++ [(tempFileName filepath moduleName folder kv.2,
            unlines r.2)] := h2.2.symm
        have hex2 : fileExists fs2 (tempFileName filepath moduleName folder kv.2) = true := by
          rw [hfs2, fileExists, List.any_append]
          simp
        rw [change_cell_and_mat_temps, hhead]
        simp only []
        rw [if_pos hex2]

/-! ## The claims -/

/-- C4 (confirmed): `find_closest_value` on a nonempty key list returns
the key minimizing the absolute difference to the query, hence the result
is a member of the list and a supported key resolves to itself; the exact
tie 750 over `[294, 600, 900]` resolves to the lower-indexed key 600 (as
does the plain nearest query 650). -/
theorem C4_find_closest_value (lst : List ℚ) (K : ℚ) (h : lst ≠ []) :
    find_closest_value lst K ∈ lst ∧
      (∀ x ∈ lst, |find_closest_value lst K - K| ≤ |x - K|) ∧
      (K ∈ lst → find_closest_value lst K = K) ∧
      find_closest_value [294, 600, 900] 750 = 600 ∧
      find_closest_value [294, 600, 900] 650 = 600 :=
  ⟨(find_closest_value_spec lst K h).1, (find_closest_value_spec lst K h).2,
    fun hK => find_closest_value_self lst K hK, by decide, by decide⟩

/-- Witness for C4 at the concrete table `[294, 600, 900]` and query 650. -/
theorem C4_witness :
    ([294, 600, 900] : List ℚ) ≠ [] ∧
      find_closest_value [294, 600, 900] 650 ∈ [294, 600, 900] :=
  ⟨by decide, (C4_find_closest_value [294, 600, 900] 650 (by decide)).1⟩

/-- C1 (confirmed): for a line processed as rod geometry, the `"pz"`
editor replaces the whitespace-split field at index 2 (the `"k/z"` editor
the field at index 4) by a decimal token whose value is the base value
plus `height_percent × 0.38`, rounded to 5 decimal places, for every
integer `height_percent` in `[0, 100]`. -/
theorem C1_rod_height_rounding (line : String) (hp : ℕ) (hh : hp ≤ 100) :
    (∀ t2 b, (pySplit line).get? 2 = some t2 → parseQ t2 = some b →
      ∃ out tok, edit_rod_height_code "pz" line (hp : ℚ) = some out ∧
        pySplit out = (pySplit line).set 2 tok ∧
        parseQ tok = some (pyRound5 (b + (hp : ℚ) * (38 / 100)))) ∧
    (∀ t4 b, (pySplit line).get? 4 = some t4 → parseQ t4 = some b →
      ∃ out tok, edit_rod_height_code "k/z" line (hp : ℚ) = some out ∧
        pySplit out = (pySplit line).set 4 tok ∧
        parseQ tok = some (pyRound5 (b + (hp : ℚ) * (38 / 100)))) := by
  have hval : ∀ b : ℚ, parseQ (strRound5 (qAdd b (qMul (hp : ℚ) CM_PER_PERCENT_HEIGHT))) =
      some (pyRound5 (b + (hp : ℚ) * (38 / 100))) := by
    intro b
    rw [strRound5, parseQ_renderScaled, qRound_eq, qMul_eq, qAdd_eq, qMul_eq,
      CM_PER_PERCENT_HEIGHT_eq, pyRound5]
    norm_num
  have htoks : ∀ (i : ℕ) (b : ℚ),
      ∀ t ∈ ((pySplit line).set i (strRound5 (qAdd b (qMul (hp : ℚ) CM_PER_PERCENT_HEIGHT)))),
        t.toList ≠ [] ∧ ∀ c ∈ t.toList, c.isWhitespace = false := by
    intro i b t ht
    rcases List.mem_or_eq_of_mem_set ht with h1 | h1
    · exact pySplit_tokensOK line t h1
    · subst h1
      rw [strRound5]
      exact renderScaled_chars _ _
  constructor
  · intro t2 b h2 hb
    refine ⟨joinSep "   "
        (((pySplit line).set 2 (strRound5 (qAdd b (qMul (hp : ℚ) CM_PER_PERCENT_HEIGHT)))).take 4)
        ++ " " ++ joinSep " "
        (((pySplit line).set 2 (strRound5 (qAdd b (qMul (hp : ℚ) CM_PER_PERCENT_HEIGHT)))).drop 4),
      strRound5 (qAdd b (qMul (hp : ℚ) CM_PER_PERCENT_HEIGHT)), ?_, ?_, hval b⟩
    · rw [edit_rod_height_code]
      simp only [h2, hb, if_pos]
    · rw [pySplit_two_joins "   " " " _ _ (by decide) (by decide)
        (by rw [List.take_append_drop]; exact htoks 2 b), List.take_append_drop]
  · intro t4 b h4 hb
    refine ⟨joinSep "   "
        (((pySplit line).set 4 (strRound5 (qAdd b (qMul (hp : ℚ) CM_PER_PERCENT_HEIGHT)))).take 7)
        ++ " " ++ joinSep " "
        (((pySplit line).set 4 (strRound5 (qAdd b (qMul (hp : ℚ) CM_PER_PERCENT_HEIGHT)))).drop 7),
      strRound5 (qAdd b (qMul (hp : ℚ) CM_PER_PERCENT_HEIGHT)), ?_, ?_, hval b⟩
    · rw [edit_rod_height_code]
      rw [if_neg (by decide)]
      simp only [h4, hb, if_pos]
    · rw [pySplit_two_joins "   " " " _ _ (by decide) (by decide)
        (by rw [List.take_append_drop]; exact htoks 4 b), List.take_append_drop]

/-- Witness for C1 at the spec's end-to-end example line and 50 percent. -/
theorem C1_witness :
    ∃ out tok, edit_rod_height_code "pz" "810 pz 5.12064 $ bottom" ((50 : ℕ) : ℚ) = some out ∧
      pySplit out = (pySplit "810 pz 5.12064 $ bottom").set 2 tok ∧
      parseQ tok = some (pyRound5 (mkRat 512064 100000 + ((50 : ℕ) : ℚ) * (38 / 100))) :=
  (C1_rod_height_rounding "810 pz 5.12064 $ bottom" 50 (by norm_num)).1
    "5.12064" (mkRat 512064 100000) (by decide) (by decide)

/-- C5 (confirmed): inside the Cells block, a non-comment line whose
second field is a target material id is emitted as the commented-out
original followed by a copy whose third whitespace field is the string
form of the negated target density. -/
theorem C5_density_rewrite (dict : List (String × String)) (line t0 t1 t2 : String)
    (rest : List String) (d : String)
    (hsplit : pySplit line = t0 :: t1 :: t2 :: rest)
    (ht0 : t0 ≠ "c")
    (hget : strDictGet dict t1 = some d)
    (hd : ∀ c ∈ d.toList, c.isWhitespace = false) :
    densityStep dict true line =
      some (true, ["c " ++ line, joinSep " " ((pySplit line).set 2 ("-" ++ d))]) ∧
    (pySplit (joinSep " " ((pySplit line).set 2 ("-" ++ d)))).get? 2 = some ("-" ++ d) := by
  have hmem : t1 ∈ dict.map Prod.fst := strDictGet_some_mem dict t1 d hget
  have htoks : ∀ t ∈ ((pySplit line).set 2 ("-" ++ d)),
      t.toList ≠ [] ∧ ∀ c ∈ t.toList, c.isWhitespace = false := by
    intro t ht
    rcases List.mem_or_eq_of_mem_set ht with h1 | h1
    · exact pySplit_tokensOK line t h1
    · subst h1
      refine ⟨by simp [toList_append], ?_⟩
      intro c hc
      rw [toList_append, List.mem_append] at hc
      rcases hc with hc | hc
      · have : c = '-' := by simpa using hc
        subst this
        rfl
      · exact hd c hc
  constructor
  · rw [densityStep, if_neg (by simp)]
    simp only [hsplit]
    rw [if_pos ht0, if_pos hmem]
    have hgetd : strDictGetD dict t1 = d := by rw [strDictGetD, hget]; rfl
    rw [hgetd, edit_cell_density_code]
    simp only [hsplit, List.get?_cons_succ, List.get?_cons_zero]
    simp [pyStrNeg]
  · rw [pySplit_join " " _ (by decide) htoks, hsplit]
    rfl

/-- Witness for C5 at the spec's example line and `DensitySpec {102: 0.95}`. -/
theorem C5_witness :
    densityStep [("102", "0.95")] true "101 102 -0.998 imp:n=1" =
      some (true, ["c 101 102 -0.998 imp:n=1",
        joinSep " " ((pySplit "101 102 -0.998 imp:n=1").set 2 ("-" ++ "0.95"))]) ∧
    (pySplit (joinSep " " ((pySplit "101 102 -0.998 imp:n=1").set 2 ("-" ++ "0.95")))).get? 2 =
      some ("-" ++ "0.95") :=
  C5_density_rewrite [("102", "0.95")] "101 102 -0.998 imp:n=1" "101" "102" "-0.998"
    ["imp:n=1"] "0.95" (by decide) (by decide) (by decide) (by decide)

/-- C2 (corrected, counterexample): the Rod Height Editor emits a
transformed geometry line *without* the commented-out original before it:
on a matched `pz` line the emission is a single rewritten line, which
neither equals the original line nor is preceded by `"c " ++ original`. -/
theorem C2_counterexample :
    rodStep ⟨50, 0, 0⟩ ⟨true, false, false⟩ "810 pz 5.12064" =
      some (⟨true, false, false⟩, ["810   pz   24.12064 "]) ∧
    ¬ commentedProvenance "810 pz 5.12064" ["810   pz   24.12064 "] ∧
    runLines (rodStep ⟨50, 0, 0⟩) ⟨false, false, false⟩
        ["c Safe Rod (0% Withdrawn)", "810 pz 5.12064", "c End of Safe Rod"] =
      some (⟨false, false, false⟩,
        ["c Safe Rod (50% withdrawn)", "810   pz   24.12064 ", "c End of Safe Rod"]) := by
  refine ⟨by decide, ?_, by decide⟩
  intro h
  rcases h with h | ⟨t, h⟩
  · exact absurd h (by decide)
  · rw [List.cons.injEq] at h
    exact absurd h.1 (by decide)

/-- C2 (corrected, amended): the Density and Temperature editors emit
every line either unchanged or as the commented-out original followed by
one replacement line; the Rod Height Editor instead always emits exactly
one line, so its rewritten lines are not preceded by their originals. -/
theorem C2_amended :
    (∀ (dict : List (String × String)) (inside : Bool) (line : String) s2 out,
      densityStep dict inside line = some (s2, out) → commentedProvenance line out) ∧
    (∀ (dict : TempSpec) (st : TempState) (line : String) s2 out,
      tempStep dict st line = some (s2, out) → commentedProvenance line out) ∧
    (∀ (hts : RodHeights) (st : RodState) (line : String) s2 out,
      rodStep hts st line = some (s2, out) → out.length = 1) :=
  ⟨fun dict inside line s2 out h => densityStep_shape dict inside line s2 out h,
   fun dict st line s2 out h => tempStep_shape dict st line s2 out h,
   fun hts st line s2 out h => rodStep_single hts st line s2 out h⟩

/-- Witness for C2's amended claim at concrete pass-through lines. -/
theorem C2_witness :
    commentedProvenance "x 1 2" ["x 1 2"] ∧ (["810   pz   24.12064 "] : List String).length = 1 :=
  ⟨C2_amended.1 [] false "x 1 2" false ["x 1 2"] (by decide),
   C2_amended.2.2 ⟨50, 0, 0⟩ ⟨true, false, false⟩ "810 pz 5.12064" ⟨true, false, false⟩
     ["810   pz   24.12064 "] (by decide)⟩

/-- C6 (code bug): the Density Editor never leaves the Cells block: the
`"Begin Surfaces"` check sits in the not-inside branch, so a matching
line *after* the `"Begin Surfaces"` marker is still rewritten instead of
being passed through unchanged. -/
theorem C6_surfaces_not_exited :
    runLines (densityStep [("102", "0.95")]) false
        ["c Begin Cells", "c Begin Surfaces", "101 102 -0.998 imp:n=1"] =
      some (true, ["c Begin Cells", "c Begin Surfaces",
        "c 101 102 -0.998 imp:n=1", "101 102 -0.95 imp:n=1"]) ∧
    (["c Begin Cells", "c Begin Surfaces", "c 101 102 -0.998 imp:n=1",
        "101 102 -0.95 imp:n=1"] : List String) ≠
      ["c Begin Cells", "c Begin Surfaces", "101 102 -0.998 imp:n=1"] := by
  constructor
  · decide
  · decide

/-- The reassembly rule as the spec words it, parameterized by how many
leading positional fields are joined with the 3-space separator. -/
def claimC8_reassemble (n : ℕ) (es : List String) : String :=
  joinSep "   " (es.take n) ++ " " ++ joinSep " " (es.drop n)

/-- C8 (corrected, counterexample): on a `pz` line the code joins the
first 4 whitespace fields with the 3-space separator, not the first 3 as
claimed; the two reassemblies differ on a concrete line. -/
theorem C8_counterexample :
    edit_rod_height_code "pz" "810 pz 5.0 extra" 50 =
      some (claimC8_reassemble 4 ((pySplit "810 pz 5.0 extra").set 2 "24.0")) ∧
    claimC8_reassemble 4 ((pySplit "810 pz 5.0 extra").set 2 "24.0") ≠
      claimC8_reassemble 3 ((pySplit "810 pz 5.0 extra").set 2 "24.0") := by
  constructor
  · decide
  · decide

/-- C8 (corrected, amended): after editing, a `"pz"` line is reassembled
by joining the first 4 whitespace-split fields (7 for `"k/z"`) with a
3-space separator, then appending the remaining fields joined by single
spaces. -/
theorem C8_amended (line t : String) (b : ℚ) (h : ℚ) :
    ((pySplit line).get? 2 = some t → parseQ t = some b →
      edit_rod_height_code "pz" line h =
        some (claimC8_reassemble 4
          ((pySplit line).set 2 (strRound5 (qAdd b (qMul h CM_PER_PERCENT_HEIGHT)))))) ∧
    ((pySplit line).get? 4 = some t → parseQ t = some b →
      edit_rod_height_code "k/z" line h =
        some (claimC8_reassemble 7
          ((pySplit line).set 4 (strRound5 (qAdd b (qMul h CM_PER_PERCENT_HEIGHT)))))) := by
  constructor
  · intro h2 hb
    rw [edit_rod_height_code, claimC8_reassemble]
    simp only [h2, hb, if_pos]
  · intro h4 hb
    rw [edit_rod_height_code, claimC8_reassemble]
    rw [if_neg (by decide)]
    simp only [h4, hb, if_pos]

/-- Witness for C8's amended claim at a concrete `pz` line. -/
theorem C8_witness :
    edit_rod_height_code "pz" "810 pz 5.0 extra" 50 =
      some (claimC8_reassemble 4
        ((pySplit "810 pz 5.0 extra").set 2
          (strRound5 (qAdd (mkRat 5 1) (qMul 50 CM_PER_PERCENT_HEIGHT))))) :=
  (C8_amended "810 pz 5.0 extra" "5.0" (mkRat 5 1) 50).1 (by decide) (by decide)

/-- C3 (confirmed): each of the three editors skips — returning `False`
with the file system untouched — when the derived output name already
exists, otherwise writes the streamed deck under that name and returns
`True`; consequently a second invocation with an identical spec finds the
file and skips, leaving the first output's bytes unchanged. -/
theorem C3_skip_or_write (fs : FS) (filepath moduleName folder : String) (hts : RodHeights)
    (ddict : List (String × String)) (tdict : TempSpec) (kv : ℤ × ℚ)
    (hhead : tdict.head? = some kv) (baseDeck : List String) :
    ((fileExists fs (rodFileName filepath moduleName folder hts) = true →
        change_rod_height fs filepath moduleName hts baseDeck folder = some (false, fs)) ∧
      (fileExists fs (rodFileName filepath moduleName folder hts) = false →
        change_rod_height fs filepath moduleName hts baseDeck folder =
          (runLines (rodStep hts) ⟨false, false, false⟩ baseDeck).map
            (fun r => (true, fs ++ [(rodFileName filepath moduleName folder hts,
              unlines r.2)]))) ∧
      (∀ fs2, change_rod_height fs filepath moduleName hts baseDeck folder =
          some (true, fs2) →
        change_rod_height fs2 filepath moduleName hts baseDeck folder = some (false, fs2))) ∧
    ((fileExists fs (densityFileName filepath moduleName folder ddict) = true →
        change_cell_densities fs filepath moduleName ddict baseDeck folder =
          some (false, fs)) ∧
      (fileExists fs (densityFileName filepath moduleName folder ddict) = false →
        change_cell_densities fs filepath moduleName ddict baseDeck folder =
          (runLines (densityStep ddict) false baseDeck).map
            (fun r => (true, fs ++ [(densityFileName filepath moduleName folder ddict,
              unlines r.2)]))) ∧
      (∀ fs2, change_cell_densities fs filepath moduleName ddict baseDeck folder =
          some (true, fs2) →
        change_cell_densities fs2 filepath moduleName ddict baseDeck folder =
          some (false, fs2))) ∧
    ((fileExists fs (tempFileName filepath moduleName folder kv.2) = true →
        change_cell_and_mat_temps fs filepath moduleName tdict baseDeck folder =
          some (false, fs)) ∧
      (fileExists fs (tempFileName filepath moduleName folder kv.2) = false →
        change_cell_and_mat_temps fs filepath moduleName tdict baseDeck folder =
          (runLines (tempStep tdict) ⟨false, false, false, false, 0⟩ baseDeck).map
            (fun r => (true, fs ++ [(tempFileName filepath moduleName folder kv.2,
              unlines r.2)]))) ∧
      (∀ fs2, change_cell_and_mat_temps fs filepath moduleName tdict baseDeck folder =
          some (true, fs2) →
        change_cell_and_mat_temps fs2 filepath moduleName tdict baseDeck folder =
          some (false, fs2))) :=
  ⟨change_rod_height_cases fs filepath moduleName hts baseDeck folder,
   change_cell_densities_cases fs filepath moduleName ddict baseDeck folder,
   change_cell_and_mat_temps_cases fs filepath moduleName tdict kv hhead baseDeck folder⟩

/-- Witness for C3: with the derived rod-variant name already on disk the
rod editor returns `False` and leaves the file system unchanged. -/
theorem C3_witness :
    change_rod_height [("fp/inputs/mod-a000-h000-r000.i", "old")] "fp" "mod" ⟨0, 0, 0⟩
        ["any line"] "inputs" =
      some (false, [("fp/inputs/mod-a000-h000-r000.i", "old")]) :=
  (C3_skip_or_write [("fp/inputs/mod-a000-h000-r000.i", "old")] "fp" "mod" "inputs"
    ⟨0, 0, 0⟩ [] [((102 : ℤ), (294 : ℚ))] ((102 : ℤ), (294 : ℚ)) (by decide)
    ["any line"]).1.1 (by decide)

/-- C7 (corrected, counterexample): with two U235-family tokens on one
line, only the occurrences of the *first* matching token are replaced;
the later family token `92235.81c` survives in the output, so the editor
does not replace every token of the matching family. -/
theorem C7_counterexample :
    edit_mat_temp_code "m92 92235.80c 0.5 92235.81c 0.5" 900 =
      some (some "m92 92235.82c 0.5 92235.81c 0.5") ∧
    "92235.81c" ∈ pySplit "m92 92235.82c 0.5 92235.81c 0.5" ∧
    "92235.81c" ∈ dictValues U235_TEMP_DICT ∧
    "92235.81c" ≠ dictGetD U235_TEMP_DICT (find_closest_value (dictKeys U235_TEMP_DICT) 900) :=
  ⟨by decide, by decide, by decide, by decide⟩

/-- C7 (corrected, amended): scanning the tokens before any `$` in order
against the five nuclide tables (U235, U238, PU239, ZR, H1 in that fixed
priority), the first token found in some table's value set determines the
rewrite: every occurrence of that token's *string* in the line is
replaced (`str.replace`) by the table entry nearest the target
temperature, and the function returns immediately — all other tokens,
including later tokens of the same family, are left as they were. -/
theorem C7_first_token_replace (line : String) (temp : ℚ) (pre post : List String) (e : String)
    (hsplit : pySplit (beforeDollar line) = pre ++ e :: post)
    (hpre : ∀ x ∈ pre, ¬ inNuclideFam x) :
    (e ∈ dictValues U235_TEMP_DICT →
      edit_mat_temp_code line temp = some (some (pyRstrip (pyReplace line e
        (dictGetD U235_TEMP_DICT (find_closest_value (dictKeys U235_TEMP_DICT) temp)))))) ∧
    (e ∉ dictValues U235_TEMP_DICT → e ∈ dictValues U238_TEMP_DICT →
      edit_mat_temp_code line temp = some (some (pyRstrip (pyReplace line e
        (dictGetD U238_TEMP_DICT (find_closest_value (dictKeys U238_TEMP_DICT) temp)))))) ∧
    (e ∉ dictValues U235_TEMP_DICT → e ∉ dictValues U238_TEMP_DICT →
      e ∈ dictValues PU239_TEMP_DICT →
      edit_mat_temp_code line temp = some (some (pyRstrip (pyReplace line e
        (dictGetD PU239_TEMP_DICT (find_closest_value (dictKeys PU239_TEMP_DICT) temp)))))) ∧
    (e ∉ dictValues U235_TEMP_DICT → e ∉ dictValues U238_TEMP_DICT →
      e ∉ dictValues PU239_TEMP_DICT → e ∈ dictValues ZR_TEMP_DICT →
      edit_mat_temp_code line temp = some (some (pyRstrip (pyReplace line e
        (dictGetD ZR_TEMP_DICT (find_closest_value (dictKeys ZR_TEMP_DICT) temp)))))) ∧
    (e ∉ dictValues U235_TEMP_DICT → e ∉ dictValues U238_TEMP_DICT →
      e ∉ dictValues PU239_TEMP_DICT → e ∉ dictValues ZR_TEMP_DICT →
      e ∈ dictValues H1_TEMP_DICT →
      edit_mat_temp_code line temp = some (some (pyRstrip (pyReplace line e
        (dictGetD H1_TEMP_DICT (find_closest_value (dictKeys H1_TEMP_DICT) temp)))))) := by
  have hskip : famScan line temp (pySplit (beforeDollar line)) =
      famScan line temp (e :: post) := by
    rw [hsplit]
    exact famScan_skip line temp pre (e :: post) hpre
  refine ⟨?_, ?_, ?_, ?_, ?_⟩
  · intro h1
    have hf : famScan line temp (pySplit (beforeDollar line)) = some (pyRstrip (pyReplace line e
        (dictGetD U235_TEMP_DICT (find_closest_value (dictKeys U235_TEMP_DICT) temp)))) := by
      rw [hskip, famScan, if_pos h1]
    rw [edit_mat_temp_code]
    simp only [hf]
  · intro h1 h2
    have hf : famScan line temp (pySplit (beforeDollar line)) = some (pyRstrip (pyReplace line e
        (dictGetD U238_TEMP_DICT (find_closest_value (dictKeys U238_TEMP_DICT) temp)))) := by
      rw [hskip, famScan, if_neg h1, if_pos h2]
    rw [edit_mat_temp_code]
    simp only [hf]
  · intro h1 h2 h3
    have hf : famScan line temp (pySplit (beforeDollar line)) = some (pyRstrip (pyReplace line e
        (dictGetD PU239_TEMP_DICT (find_closest_value (dictKeys PU239_TEMP_DICT) temp)))) := by
      rw [hskip, famScan, if_neg h1, if_neg h2, if_pos h3]
    rw [edit_mat_temp_code]
    simp only [hf]
  · intro h1 h2 h3 h4
    have hf : famScan line temp (pySplit (beforeDollar line)) = some (pyRstrip (pyReplace line e
        (dictGetD ZR_TEMP_DICT (find_closest_value (dictKeys ZR_TEMP_DICT) temp)))) := by
      rw [hskip, famScan, if_neg h1, if_neg h2, if_neg h3, if_pos h4]
    rw [edit_mat_temp_code]
    simp only [hf]
  · intro h1 h2 h3 h4 h5
    have hf : famScan line temp (pySplit (beforeDollar line)) = some (pyRstrip (pyReplace line e
        (dictGetD H1_TEMP_DICT (find_closest_value (dictKeys H1_TEMP_DICT) temp)))) := by
      rw [hskip, famScan, if_neg h1, if_neg h2, if_neg h3, if_neg h4, if_pos h5]
    rw [edit_mat_temp_code]
    simp only [hf]

/-- Witness for C7's amended claim at the two-token U235 line. -/
theorem C7_witness :
    edit_mat_temp_code "m92 92235.80c 0.5 92235.81c 0.5" 900 =
      some (some (pyRstrip (pyReplace "m92 92235.80c 0.5 92235.81c 0.5" "92235.80c"
        (dictGetD U235_TEMP_DICT (find_closest_value (dictKeys U235_TEMP_DICT) 900))))) :=
  (C7_first_token_replace "m92 92235.80c 0.5 92235.81c 0.5" 900 ["m92"]
    ["0.5", "92235.81c", "0.5"] "92235.80c" (by decide) (by decide)).1 (by decide)

/-- C9 (confirmed): if no remaining line both starts with `c` and
contains the safe-rod end marker, the scanner stays in the safe-rod state
through end of file and every remaining line is processed by the
inside-block handler; no new failure arises from the missing end marker
(the run succeeds whenever each line's in-block handling succeeds). -/
theorem C9_unterminated_block (hts : RodHeights) (lines : List String)
    (h : ∀ l ∈ lines, ¬(firstChar l = 'c' ∧ containsStr l "End of Safe Rod" = true)) :
    runLines (rodStep hts) ⟨true, false, false⟩ lines =
      (rodBlockAll "End of Safe Rod" hts.safe lines).map
        (fun outs => (⟨true, false, false⟩, outs)) ∧
    ((∀ l ∈ lines, (rodBlockLine "End of Safe Rod" hts.safe l).isSome = true) →
      (runLines (rodStep hts) ⟨true, false, false⟩ lines).isSome = true) := by
  refine ⟨runLines_inside_safe hts lines h, ?_⟩
  intro h2
  rw [runLines_inside_safe hts lines h]
  rw [Option.isSome_map']
  exact rodBlockAll_isSome _ _ lines h2

/-- Witness for C9 on a two-line unterminated safe-rod block. -/
theorem C9_witness :
    runLines (rodStep ⟨50, 0, 0⟩) ⟨true, false, false⟩ ["810 pz 5.12064", "note line"] =
      (rodBlockAll "End of Safe Rod" 50 ["810 pz 5.12064", "note line"]).map
        (fun outs => (⟨true, false, false⟩, outs)) :=
  (C9_unterminated_block ⟨50, 0, 0⟩ ["810 pz 5.12064", "note line"] (by decide)).1

/-- C10 (confirmed): on a Materials-block line of a target material whose
tokens before any `$` contain no value of any scanned table and whose
first token does not start with `mt`, `edit_mat_temp_code` returns
Python's `None`, and the temperature editor writes the commented-out
original followed by the literal line `"None"`. -/
theorem C10_literal_none (dict : TempSpec) (st : TempState) (line : String)
    (t0 : String) (toks : List String) (mid : ℤ) (T : ℚ)
    (hm1 : containsStr line "Begin Cells" = false)
    (hm2 : containsStr line "Begin Core Water Cells" = false)
    (hm3 : containsStr line "Begin Surfaces" = false)
    (hm4 : containsStr line "Begin Materials" = false)
    (hm5 : containsStr line "End Materials" = false)
    (hm6 : containsStr line "End Core Water Cells" = false)
    (hcells : st.cells = false) (hwater : st.water = false) (hsurfs : st.surfs = false)
    (hmats : st.mats = true)
    (hsplit : pySplit line = t0 :: toks) (ht0 : t0 ≠ "c")
    (hmid : (if pyStartsWith line "m" = true then
        pyIntParse (String.mk (t0.toList.filter Char.isDigit))
      else some st.matId) = some mid)
    (hkey : zDictGet dict mid = some T)
    (es : List String) (e0 : String)
    (hes : pySplit (beforeDollar line) = e0 :: es)
    (hfam : ∀ x ∈ e0 :: es, ¬ inNuclideFam x)
    (hmt : pyStartsWith e0 "mt" = false) :
    edit_mat_temp_code line T = some none ∧
    tempStep dict st line = some ({ st with matId := mid }, ["c " ++ line, "None"]) := by
  have h1 : famScan line T (e0 :: es) = none := by
    rw [← List.append_nil (e0 :: es), famScan_skip line T _ _ hfam]
    rfl
  have hedit : edit_mat_temp_code line T = some none := by
    rw [edit_mat_temp_code]
    simp only [hes, h1]
    rw [if_neg (by simp [hmt])]
  refine ⟨hedit, ?_⟩
  have hmatsline : tempMatsLine dict st.matId line = some (mid, ["c " ++ line, "None"]) := by
    rw [tempMatsLine]
    simp only [hsplit]
    rw [if_pos ht0, hmid]
    simp only []
    rw [if_pos (zDictGet_some_mem dict mid T hkey)]
    rw [show (zDictGet dict mid).getD 0 = T by rw [hkey]; rfl]
    rw [hedit]
    rfl
  rw [tempStep, if_neg (by simp [hm1]), if_neg (by simp [hm2]), if_neg (by simp [hm3]),
    if_neg (by simp [hm4]), if_neg (by simp [hm5]), if_neg (by simp [hm6]),
    if_neg (by simp [hmats]), if_neg (by simp [hcells]), if_neg (by simp [hwater]),
    if_neg (by simp [hsurfs]), hmatsline]
  rfl

/-- Witness for C10 on a target material card with an unscanned nuclide. -/
theorem C10_witness :
    edit_mat_temp_code "m101 13027.00c 1" 900 = some none ∧
    tempStep [((101 : ℤ), (900 : ℚ))] ⟨false, false, false, true, 0⟩ "m101 13027.00c 1" =
      some (⟨false, false, false, true, 101⟩, ["c " ++ "m101 13027.00c 1", "None"]) :=
  C10_literal_none [((101 : ℤ), (900 : ℚ))] ⟨false, false, false, true, 0⟩ "m101 13027.00c 1"
    "m101" ["13027.00c", "1"] 101 900 (by decide) (by decide) (by decide) (by decide)
    (by decide) (by decide) rfl rfl rfl rfl (by decide) (by decide) (by decide) (by decide)
    ["13027.00c", "1"] "m101" (by decide) (by decide) (by decide)
